import Mathlib

/-!
# Verification of the chelp slot containers

Shallow embedding of the `chelp` repository's three single-allocation
containers (slotlist.h, slotmap.h, slottable.h, over slotbase.h) and proofs
about them.  Machine integers are modelled as `Nat`; all `SLOT_ID` fields are
32-bit unsigned in the source, and wrap-around is made explicit (`sub32`)
exactly where a decrement can underflow in a scenario a theorem touches.
Raw memory (entry arrays, bucket arrays) is modelled as total functions
`Nat → _`: reading beyond the initialised region yields unconstrained
"garbage" values, which mirrors C reading uninitialised memory; freshly
`malloc`ed garbage is universally quantified (`g` parameters).
-/

namespace Chelp

/-! ## Base configuration (slotbase.h) -/

/-- `UINT32_MAX`, the sentinel "none" handle `SLOT_NONE_ID`. -/
def SLOT_NONE_ID : Nat := 4294967295

/-- `2^32`, the modulus of 32-bit unsigned arithmetic. -/
def U32 : Nat := 4294967296

/-- 32-bit unsigned subtraction `a - b` (two's-complement wrap). -/
def sub32 (a b : Nat) : Nat := (a + (U32 - b % U32)) % U32

/-- `SLOT_ALIGN_SIZE`: the standard byte alignment, 16. -/
def SLOT_ALIGN_SIZE : Nat := 16

/-- `SLOT_DIV_ALIGN(n, d) = (((n) - 1) / (d)) + 1`. -/
def SLOT_DIV_ALIGN (n d : Nat) : Nat := (n - 1) / d + 1

/-- `SLOT_ALIGN(n, d) = (((n) + (d)) & ~((d) - 1))`.  The source only ever
instantiates `d` with a power of two (the default `SLOT_ALIGN_SIZE = 16`);
for a power of two `d`, masking with `~(d - 1)` clears the low bits of
`n + d`, i.e. subtracts `(n + d) % d`, which is the arithmetic form used
here. -/
def SLOT_ALIGN (n d : Nat) : Nat := (n + d) - (n + d) % d

/-- `SLOT_FLEX_SIZE`: the standard growth pattern
`10 → 100 → 1000 → 10000 → 2·n`. -/
def SLOT_FLEX_SIZE (n : Nat) : Nat :=
  if n < 10 then 10
  else if n < 100 then 100
  else if n < 1000 then 1000
  else if n < 10000 then 10000
  else n * 2

theorem SLOT_FLEX_SIZE_gt (n : Nat) : n < SLOT_FLEX_SIZE n := by
  unfold SLOT_FLEX_SIZE
  split
  · omega
  split
  · omega
  split
  · omega
  split
  · omega
  omega

/-! ## SlotList (slotlist.h)

The block holds `SLOT_EXT_SIZE` (default 0) reserved words, then
`allocated` (`sbm`), `count` (`sbn`), then the item payload.  We model the
payload as a total function and the two metadata words as fields; the null
container is `none`.  The reallocation primitive is injected as a predicate
`re : Nat → Bool` saying whether `realloc` to that many bytes succeeds
(its move semantics preserve the payload, which the function model keeps). -/

/-- `SLOTLIST_MAX = UINT32_MAX`. -/
def SLOTLIST_MAX : Nat := 4294967295

structure SlotList (A : Type) where
  /-- `slotlist__sbm`: allocated item capacity. -/
  sbm : Nat
  /-- `slotlist__sbn`: item count. -/
  sbn : Nat
  /-- the item payload -/
  items : Nat → A

/-- `slotlist_count(a) = a ? sbn(a) : 0`. -/
def slotlist_count {A} (a : Option (SlotList A)) : Nat :=
  match a with
  | none => 0
  | some l => l.sbn

/-- `slotlist_allocated(a) = a ? sbm(a) : 0`. -/
def slotlist_allocated {A} (a : Option (SlotList A)) : Nat :=
  match a with
  | none => 0
  | some l => l.sbm

/-- `slotlist__sbneedgrow(a,n) = (a == 0 || sbn(a)+n > sbm(a))`. -/
def slotlist__sbneedgrow {A} (a : Option (SlotList A)) (n : Nat) : Bool :=
  match a with
  | none => true
  | some l => decide (l.sbn + n > l.sbm)

/-- The `while (newitems < needed) newitems = SLOT_FLEX_SIZE(newitems)` loop
of `slotlist__sbgrowf`; terminates because `SLOT_FLEX_SIZE` is strictly
increasing. -/
def flexLoop (needed cur : Nat) : Nat :=
  if cur < needed then flexLoop needed (SLOT_FLEX_SIZE cur) else cur
termination_by needed - cur
decreasing_by
  have := SLOT_FLEX_SIZE_gt cur
  omega

/-- `slotlist__sbgrowf(arr, increment, itemsize)` from slotlist.h.
`re newsize` tells whether `SLOT_REALLOC` succeeds for `newsize` bytes;
`g` is the garbage content of a freshly allocated block.  Returns the new
block, or `none` (C returns `NULL`) when the byte allocation fails or the
computed capacity reaches `SLOTLIST_MAX`. -/
def slotlist__sbgrowf {A} (re : Nat → Bool) (g : Nat → A)
    (a : Option (SlotList A)) (increment itemsize : Nat) : Option (SlotList A) :=
  -- extsize = sizeof(SLOT_ID) * (2 + SLOT_EXT_SIZE) = 4 * 2
  let extsize := 8
  let needed := slotlist_count a + increment + SLOT_DIV_ALIGN extsize itemsize
  let newitems := flexLoop needed (slotlist_allocated a)
  let newsize := SLOT_ALIGN (newitems * itemsize) SLOT_ALIGN_SIZE
  let newitems2 := (newsize - extsize) / itemsize
  if newitems2 < SLOTLIST_MAX then
    if re newsize then
      some { sbm := newitems2,
             sbn := slotlist_count a,   -- p[1] = 0 when arr was null; else preserved
             items := match a with
                      | some l => l.items
                      | none => g }
    else none
  else none

/-- `slotlist_push(a, v)`: `slotlist__sbmaybegrow(a,1)` — which *assigns*
`slotlist__sbgrowf`'s result to `a`, even when that result is `NULL` — then
`slotlist_at(a, sbn(a)++) = v`.  When the grow fails the source writes
through the null array pointer; that state is modelled as `none` (the
handle was overwritten with `NULL` and the prior block is gone). -/
def slotlist_push {A} (re : Nat → Bool) (g : Nat → A) (itemsize : Nat)
    (a : Option (SlotList A)) (v : A) : Option (SlotList A) :=
  let a' := if slotlist__sbneedgrow a 1 then slotlist__sbgrowf re g a 1 itemsize else a
  match a' with
  | none => none
  | some l =>
      some { l with sbn := l.sbn + 1,
                    items := fun i => if i = l.sbn then v else l.items i }

/-! ## SlotMap (slotmap.h, 32-bit variant with embedded freelist)

Handles are 32-bit words: low 24 bits index, high 8 bits version.  A live
slot's record starts with an 8-bit version field; a free slot overlays a
`SLOTMAP_FREE { version : 8, next_free : 24 }` pair onto the same bytes.
Since the bytes carry no tag, the model stores every slot as the raw pair
`(version, next24)` — exactly what `slotmap_at` (first 8 bits) and the
freelist walk (next 24 bits) can read; the user payload beyond the first
word is irrelevant to every claim and is abstracted away.  Metadata words
`p[0..3]` are `siz` (allocated), `use` (filled), `frl` (free head, or
`SLOT_NONE_ID`), `frc` (free count). -/

/-- `SLOTMAP_MAX_ID = 0xFFFFFF`: hard 24-bit index limit. -/
def SLOTMAP_MAX_ID : Nat := 16777215

/-- `2^24`, the index modulus. -/
def IDX_MOD : Nat := 16777216

/-- `slotmap_index(id) = id & SLOTMAP_MAX_ID`; for the power-of-two-minus-one
mask `0xFFFFFF` this is `id % 2^24`. -/
def slotmap_index (id : Nat) : Nat := id % IDX_MOD

/-- `slotmap__id(index, v) = slotmap_index(index) | ((SLOT_ID)(v) << 24)`:
the shifted version keeps its low 8 bits in 32-bit arithmetic, and the
bitwise-or of the two disjoint bit ranges is addition. -/
def slotmap__id (index v : Nat) : Nat := slotmap_index index + v % 256 * IDX_MOD

/-- One raw 32-bit slot word: as a live record, `version` is the record's
leading 8-bit version field; as a `SLOTMAP_FREE` overlay, `version` is the
next version to issue and `next24` the 24-bit free-chain link.  Writes keep
`version < 256` and `next24 < 2^24` (C bitfield stores). -/
structure SMSlot where
  version : Nat
  next24 : Nat

structure SlotMap where
  /-- `p[0]`: allocated slot capacity. -/
  siz : Nat
  /-- `p[1]`: filled entries (high-water mark). -/
  use : Nat
  /-- `p[2]`: free-chain head, or `SLOT_NONE_ID`. -/
  frl : Nat
  /-- `p[3]`: free count. -/
  frc : Nat
  /-- the slot array (function model; reads beyond `use` are garbage) -/
  slots : Nat → SMSlot

/-- `slotmap_used(a) = a ? use(a) : 0`. -/
def slotmap_used (a : Option SlotMap) : Nat :=
  match a with
  | none => 0
  | some m => m.use

/-- `slotmap_count(a) = a ? use(a) - frc(a) : 0` (32-bit subtraction). -/
def slotmap_count (a : Option SlotMap) : Nat :=
  match a with
  | none => 0
  | some m => sub32 m.use m.frc

/-- `slotmap_allocated(a) = a ? siz(a) : 0`. -/
def slotmap_allocated (a : Option SlotMap) : Nat :=
  match a with
  | none => 0
  | some m => m.siz

/-- `slotmap_at(a, id)`: the item pointer is modelled as the slot index.
Succeeds iff `slotmap_index(id) < use(a)` and the slot's leading version
field equals `id >> 24`. -/
def slotmap_at (a : Option SlotMap) (id : Nat) : Option Nat :=
  match a with
  | none => none
  | some m =>
      let i := slotmap_index id
      if i < m.use then
        if (m.slots i).version = id / IDX_MOD then some i else none
      else none

/-- `slotmap_remove(a, id)` (= `slotmap_remove_and` with an empty block):
if `slotmap_at` succeeds, overlay the slot with
`(SLOTMAP_FREE){ item->version + 1, frl(a) }`, set `frl(a) =
slotmap_index(id)` and `frc(a)++`.  Returns the updated map and the
last-look pointer (slot index).  The `frc` increment cannot reach `2^32`
in any run shorter than `2^32` operations, so it is left unwrapped. -/
def slotmap_remove (a : Option SlotMap) (id : Nat) : Option SlotMap × Option Nat :=
  match a with
  | none => (none, none)
  | some m =>
      match slotmap_at (some m) id with
      | none => (some m, none)
      | some i =>
          let old := m.slots i
          let m' :=
            { m with
                slots := fun j =>
                  if j = i then
                    { version := (old.version + 1) % 256, next24 := m.frl % IDX_MOD }
                  else m.slots j,
                frl := slotmap_index id,
                frc := m.frc + 1 }
          (some m', some i)

/-- `slotmap__make(ary, itemsize, idp)` fused with `slotmap__new`'s
`__item__->version = (id >> 24)` write (`slotmap_add`).  Returns the new
map and the issued id.  `SLOT_REALLOC` is modelled as always succeeding:
the source dereferences the result unconditionally (`p[0] = x`), so an
allocation failure is an immediate null-pointer write, not a state.  The
freelist pop uses the raw head `x` as the slot offset, exactly like
`slotmap_array(arr) + (x * itemsize)`.  `g` is the garbage content of a
freshly allocated block. -/
def slotmap_add (itemsize : Nat) (g : Nat → SMSlot) (a : Option SlotMap) :
    Option SlotMap × Nat :=
  match a with
  | some m =>
      let x := m.frl
      if slotmap_index x ≠ SLOTMAP_MAX_ID then
        -- pop the free head; frc--; frl = free_item->next_free
        let free_item := m.slots x
        let id := slotmap__id x free_item.version
        let m' :=
          { m with
              frc := sub32 m.frc 1,
              frl := free_item.next24,
              slots := fun j =>
                if j = x then { free_item with version := id / IDX_MOD % 256 }
                else m.slots j }
        (some m', id)
      else
        -- used == siz triggers growth; realloc keeps the payload in place
        let m2 :=
          if m.use = m.siz then
            let newsiz := SLOT_ALIGN (SLOT_FLEX_SIZE m.siz * itemsize + 16) SLOT_ALIGN_SIZE
            { m with siz := (newsiz - 16) / itemsize }
          else m
        let id := m2.use
        let m' :=
          { m2 with
              use := m2.use + 1,
              slots := fun j =>
                if j = id then { m2.slots id with version := id / IDX_MOD % 256 }
                else m2.slots j }
        (some m', id)
  | none =>
      -- first allocation: p[1] = p[3] = 0; p[2] = SLOT_NONE_ID; then append
      let newsiz := SLOT_ALIGN (SLOT_FLEX_SIZE 0 * itemsize + 16) SLOT_ALIGN_SIZE
      let m0 : SlotMap :=
        { siz := (newsiz - 16) / itemsize, use := 0, frl := SLOT_NONE_ID, frc := 0,
          slots := g }
      let m' :=
        { m0 with
            use := 1,
            slots := fun j =>
              if j = 0 then { m0.slots 0 with version := 0 } else m0.slots j }
      (some m', 0)

/-- `slotmap_copy` differs from `slotmap_add` only by bit-copying the source
record into the slot before the version write; the payload is abstracted
away, so the metadata effect is identical. -/
def slotmap_copy (itemsize : Nat) (g : Nat → SMSlot) (a : Option SlotMap) :
    Option SlotMap × Nat :=
  slotmap_add itemsize g a

/-! ## SlotTable (slottable.h)

An insertion-ordered open-addressed hash table: a bucket array
`index[allocated]` of entry ids feeding a dense array of
`Ch_SlotTableItem { hash, next, data }` entries; collisions chain through
`next`, tombstones carry `hash = SLOT_NONE_ID` and thread the free chain
through `next`.  Both arrays are modelled as total functions (reads beyond
the initialised region are garbage, as in C); the user payload type is a
parameter `D` and the user comparator `cmp k d` returns `true` where the C
comparator returns `0` (equal). -/

/-- `SLOT_DOUBLE_SIZE(n) = !n ? 8 : n * 2`. -/
def SLOT_DOUBLE_SIZE (n : Nat) : Nat := if n = 0 then 8 else n * 2

/-- `Ch_SlotTableItem`: one dense entry. -/
structure STItem (D : Type) where
  hash : Nat
  next : Nat
  data : D

/-- `Ch_SlotTable`: the metadata header plus the two arrays. -/
structure STTable (D : Type) where
  allocated : Nat
  used : Nat
  active : Nat
  next_free : Nat
  /-- `index[allocated]`: per-bucket head entry id, or `SLOT_NONE_ID` -/
  index : Nat → Nat
  /-- the dense entry array -/
  entries : Nat → STItem D

/-- `slottable_used(a) = a ? used : 0`. -/
def slottable_used {D} (a : Option (STTable D)) : Nat :=
  match a with
  | none => 0
  | some t => t.used

/-- `slottable_count(a) = a ? active : 0`. -/
def slottable_count {D} (a : Option (STTable D)) : Nat :=
  match a with
  | none => 0
  | some t => t.active

/-- `slottable_allocated(a) = a ? allocated : 0`. -/
def slottable_allocated {D} (a : Option (STTable D)) : Nat :=
  match a with
  | none => 0
  | some t => t.allocated

/-- `SLOTTABLE_ORDERED = 1`, `SLOTTABLE_FIXED_ID = 2`. -/
def SLOTTABLE_ORDERED : Nat := 1
def SLOTTABLE_FIXED_ID : Nat := 2

/-- `slottable__fix_hash(hsh) = (hsh == SLOT_NONE_ID ? SLOT_NONE_ID - 1 : hsh)`. -/
def slottable__fix_hash (hsh : Nat) : Nat :=
  if hsh = SLOT_NONE_ID then SLOT_NONE_ID - 1 else hsh

/-- The loop body of `slottable_find`: walk the collision chain from entry
id `id`, skipping entries whose stored `hash` differs from the fixed hash
or whose data the comparator rejects.  The C `while` has no bound; `fuel`
makes the walk total, with `none` on exhaustion standing for the
non-termination a cyclic (corrupted) chain would cause. -/
def slottable_findAux {K D : Type} (es : Nat → STItem D) (cmp : K → D → Bool)
    (key : K) (hsh : Nat) : Nat → Nat → Option Nat
  | 0, _ => none
  | fuel + 1, id =>
      if id = SLOT_NONE_ID then none
      else
        let item := es id
        if hsh = item.hash ∧ cmp key item.data then some id
        else slottable_findAux es cmp key hsh fuel item.next

/-- `slottable_find(a, hsh, id, cmp, key)`: start from the bucket
`fix_hash(hsh) & (allocated - 1)`; returns the found entry id (the out
parameter `id`; the data pointer is `entries id`).  A well-formed chain
visits at most `used` entries, so fuel `used + 1` suffices. -/
def slottable_find {K D : Type} (a : Option (STTable D)) (cmp : K → D → Bool)
    (key : K) (hsh : Nat) : Option Nat :=
  match a with
  | none => none
  | some t =>
      let h := slottable__fix_hash hsh
      slottable_findAux t.entries cmp key h (t.used + 1) (t.index (h &&& (t.allocated - 1)))

/-- `slottable_remove(a, hsh, cmp, key)`: `slottable_find`, leaving
`__id__ = SLOT_NONE_ID` on a miss, then — unconditionally — set the item's
`hash = SLOT_NONE_ID`, push it onto the free chain and decrement `active`.
On a miss the entry write lands at id `SLOT_NONE_ID`, far outside the
dense array, exactly as `slottable__item(a, 0xFFFFFFFF, sz)` does in C.
Returns the updated table and the found data pointer (entry id), `none` on
a miss. -/
def slottable_remove {K D : Type} (a : Option (STTable D)) (hsh : Nat)
    (cmp : K → D → Bool) (key : K) : Option (STTable D) × Option Nat :=
  match a with
  | none => (none, none)
  | some t =>
      let found := slottable_find (some t) cmp key hsh
      let id := found.getD SLOT_NONE_ID
      let t' :=
        { t with
            entries := fun j =>
              if j = id then { t.entries id with hash := SLOT_NONE_ID, next := t.next_free }
              else t.entries j,
            next_free := id,
            active := sub32 t.active 1 }
      (some t', found)

/-- `slottable_at_id(a, id)`: direct access; `none` when the entry is a
tombstone. -/
def slottable_at_id {D} (a : Option (STTable D)) (id : Nat) : Option Nat :=
  match a with
  | none => none
  | some t => if (t.entries id).hash = SLOT_NONE_ID then none else some id

/-- Accumulator of the copy-and-rehash loop in `slottable__insert`:
the new bucket array, the new dense array, the next dense id to assign and
the live count so far. -/
structure GrowAcc (D : Type) where
  index : Nat → Nat
  entries : Nat → STItem D
  newid : Nat
  newactive : Nat

/-- One iteration of the copy-and-rehash loop, processing old entry `old`:
a live entry is linked at the head of its new bucket
(`slottable__add_hash(newtbl, newid, item)` sets `item->next` to the old
head before the `memcpy`) and counted; a tombstone is copied verbatim only
under `SLOTTABLE_FIXED_ID`, otherwise skipped. -/
def slottable__growStep {D} (flags newsiz : Nat) (acc : GrowAcc D) (old : STItem D) :
    GrowAcc D :=
  if old.hash ≠ SLOT_NONE_ID then
    let b := old.hash &&& (newsiz - 1)
    { index := fun j => if j = b then acc.newid else acc.index j,
      entries := fun j =>
        if j = acc.newid then { hash := old.hash, next := acc.index b, data := old.data }
        else acc.entries j,
      newid := acc.newid + 1,
      newactive := acc.newactive + 1 }
  else if flags &&& SLOTTABLE_FIXED_ID ≠ 0 then
    { acc with
        entries := fun j => if j = acc.newid then old else acc.entries j,
        newid := acc.newid + 1 }
  else acc

/-- The `for (i = 0; i < used; i++)` copy-and-rehash loop. -/
def slottable__growLoop {D} (flags newsiz : Nat) (es : Nat → STItem D) (used : Nat)
    (init : GrowAcc D) : GrowAcc D :=
  (List.range used).foldl (fun acc i => slottable__growStep flags newsiz acc (es i)) init

/-- The growth block of `slottable__insert` (slottable.h:185-217): allocate
a block of `SLOT_DOUBLE_SIZE(allocated)` entries, `memset` the bucket
array to `SLOT_NONE_ID`, copy-and-rehash, carry `next_free` across only
under `SLOTTABLE_FIXED_ID`.  `g` is the fresh block's garbage contents;
`malloc` is modelled as succeeding (the source uses its result
unchecked). -/
def slottable__grow {D} (a : Option (STTable D)) (flags : Nat) (g : Nat → STItem D) :
    STTable D :=
  let siz := slottable_allocated a
  let newsiz := SLOT_DOUBLE_SIZE siz
  let acc0 : GrowAcc D := { index := fun _ => SLOT_NONE_ID, entries := g,
                            newid := 0, newactive := 0 }
  let acc := match a with
             | some t => slottable__growLoop flags newsiz t.entries t.used acc0
             | none => acc0
  { allocated := newsiz,
    used := acc.newid,
    active := acc.newactive,
    next_free := match a with
                 | some t => if flags &&& SLOTTABLE_FIXED_ID ≠ 0 then t.next_free
                             else SLOT_NONE_ID
                 | none => SLOT_NONE_ID,
    index := acc.index,
    entries := acc.entries }

/-- `slottable__insert(ary, itemsize, idp, flags)`: pop the free chain when
it is non-empty *and* `SLOTTABLE_ORDERED` is set (the condition as written
in the source, contradicting its own comment); otherwise grow when
`used == allocated`, then append (`active++`, id = `used++`).  Returns the
updated table and the id. -/
def slottable__insert {D} (a : Option (STTable D)) (flags : Nat) (g : Nat → STItem D) :
    STTable D × Nat :=
  match a with
  | some t =>
      if t.next_free ≠ SLOT_NONE_ID ∧ flags &&& SLOTTABLE_ORDERED ≠ 0 then
        let x := t.next_free
        ({ t with next_free := (t.entries x).next }, x)
      else
        let t2 := if t.used = t.allocated then slottable__grow (some t) flags g else t
        ({ t2 with active := t2.active + 1, used := t2.used + 1 }, t2.used)
  | none =>
      let t2 := slottable__grow none flags g
      ({ t2 with active := t2.active + 1, used := t2.used + 1 }, t2.used)

/-- `slottable_add(a, hsh, id, flags)` (with the caller's subsequent data
write into the returned item folded in): `slottable__insert`, then
`item->hash = slottable__fix_hash(hsh)` and `slottable__add_hash` (link the
id at the head of bucket `item->hash & (allocated - 1)`). -/
def slottable_add {D} (a : Option (STTable D)) (hsh : Nat) (d : D) (flags : Nat)
    (g : Nat → STItem D) : Option (STTable D) × Nat :=
  let r := slottable__insert a flags g
  let t := r.1
  let id := r.2
  let fixed := slottable__fix_hash hsh
  let b := fixed &&& (t.allocated - 1)
  let e : STItem D := { hash := fixed, next := t.index b, data := d }
  (some { t with
            entries := fun j => if j = id then e else t.entries j,
            index := fun j => if j = b then id else t.index j },
   id)

/-! ## Claim C8: the growth schedule -/

/-- C8: for every capacity `n`, `SLOT_FLEX_SIZE` returns 10 below 10, 100
below 100, 1000 below 1000, 10000 below 10000, and `2·n` from 10000 on. -/
theorem flex_schedule (n : Nat) :
    (n < 10 → SLOT_FLEX_SIZE n = 10) ∧
    (10 ≤ n → n < 100 → SLOT_FLEX_SIZE n = 100) ∧
    (100 ≤ n → n < 1000 → SLOT_FLEX_SIZE n = 1000) ∧
    (1000 ≤ n → n < 10000 → SLOT_FLEX_SIZE n = 10000) ∧
    (10000 ≤ n → SLOT_FLEX_SIZE n = 2 * n) := by
  unfold SLOT_FLEX_SIZE
  refine ⟨?_, ?_, ?_, ?_, ?_⟩ <;> intros <;> split_ifs <;> omega

theorem flex_schedule_witness :
    SLOT_FLEX_SIZE 0 = 10 ∧ SLOT_FLEX_SIZE 10 = 100 ∧ SLOT_FLEX_SIZE 100 = 1000 ∧
    SLOT_FLEX_SIZE 1000 = 10000 ∧ SLOT_FLEX_SIZE 10000 = 20000 :=
  ⟨(flex_schedule 0).1 (by decide),
   (flex_schedule 10).2.1 (by decide) (by decide),
   (flex_schedule 100).2.2.1 (by decide) (by decide),
   (flex_schedule 1000).2.2.2.1 (by decide) (by decide),
   by have := (flex_schedule 10000).2.2.2.2 (by decide); omega⟩

/-! ## Claim C9: the alignment rounding -/

/-- C9 counterexample: `align(16, 16) = 32`, yet `16` itself is a multiple
of 16 that is `≥ 16` and smaller than 32 — so `align` is *not* the
smallest multiple of `A` greater than or equal to `n`. -/
theorem align_counterexample :
    SLOT_ALIGN 16 16 = 32 ∧ (16 % 16 = 0 ∧ 16 ≤ 16) ∧ ¬(SLOT_ALIGN 16 16 ≤ 16) := by
  decide

/-- C9 (amended): for every `n` and power-of-two `A = 2^k`,
`SLOT_ALIGN n A` is the smallest multiple of `A` *strictly greater* than
`n` (the `(n + A) & ~(A - 1)` formula always advances past `n`, landing on
`n + A` when `n` is already a multiple). -/
theorem align_rounds_up_strict (n k : Nat) :
    SLOT_ALIGN n (2 ^ k) % 2 ^ k = 0 ∧
    n < SLOT_ALIGN n (2 ^ k) ∧
    ∀ m, m % 2 ^ k = 0 → n < m → SLOT_ALIGN n (2 ^ k) ≤ m := by
  set A := 2 ^ k with hA
  have hApos : 0 < A := Nat.pos_pow_of_pos k (by omega)
  have hform : SLOT_ALIGN n A = A * ((n + A) / A) := by
    have := Nat.div_add_mod (n + A) A
    unfold SLOT_ALIGN
    omega
  refine ⟨?_, ?_, ?_⟩
  · rw [hform]
    exact Nat.mul_mod_right _ _
  · have := Nat.mod_lt (n + A) hApos
    unfold SLOT_ALIGN
    omega
  · intro m hm hnm
    obtain ⟨q, rfl⟩ := Nat.dvd_of_mod_eq_zero hm
    rw [hform]
    have hq : (n + A) / A < q + 1 := by
      rw [Nat.div_lt_iff_lt_mul hApos]
      have : 0 < q := by
        rcases Nat.eq_zero_or_pos q with h0 | h0
        · subst h0; omega
        · exact h0
      calc n + A < A * q + A := by omega
        _ = (q + 1) * A := by ring
    exact Nat.mul_le_mul_left A (by omega)

theorem align_rounds_up_strict_witness :
    (5 : Nat) < SLOT_ALIGN 5 16 ∧ SLOT_ALIGN 5 16 ≤ 16 :=
  ⟨(align_rounds_up_strict 5 4).2.1,
   (align_rounds_up_strict 5 4).2.2 16 (by decide) (by decide)⟩

/-! ## Claim C10: reads on the null container -/

/-- C10: on the null handle, `slotlist_count`/`slotlist_allocated`,
`slotmap_used`/`slotmap_count` and `slottable_used`/`slottable_count`/
`slottable_allocated` all return 0. -/
theorem null_container_reads (A D : Type) :
    slotlist_count (none : Option (SlotList A)) = 0 ∧
    slotlist_allocated (none : Option (SlotList A)) = 0 ∧
    slotmap_used none = 0 ∧
    slotmap_count none = 0 ∧
    slottable_used (none : Option (STTable D)) = 0 ∧
    slottable_count (none : Option (STTable D)) = 0 ∧
    slottable_allocated (none : Option (STTable D)) = 0 :=
  ⟨rfl, rfl, rfl, rfl, rfl, rfl, rfl⟩

/-! ## Claim C4: allocation failure is not transactional -/

/-- A full slot list (`count = allocated = 10`) about to be pushed onto. -/
def c4PriorList : SlotList Nat := { sbm := 10, sbn := 10, items := fun _ => 0 }

/-- C4: evaluation at the failing input.  With `realloc` failing,
`slotlist_push` on a full list yields the null handle: the macro
`slotlist__sbgrow(a,n)` assigns `slotlist__sbgrowf`'s `NULL` straight into
`a`, so the prior block is lost (leaked) and the container is *not* left
in its prior valid state — and the push then writes through the null
array pointer. -/
theorem slotlist_push_alloc_failure :
    slotlist_push (fun _ => false) (fun _ => (0 : Nat)) 4 (some c4PriorList) 99 = none ∧
    some c4PriorList ≠ (none : Option (SlotList Nat)) := by
  constructor
  · simp [slotlist_push, slotlist__sbneedgrow, slotlist__sbgrowf, c4PriorList,
      slotlist_count, slotlist_allocated, SLOT_DIV_ALIGN, SLOT_ALIGN,
      SLOT_ALIGN_SIZE, SLOTLIST_MAX, flexLoop, SLOT_FLEX_SIZE]
  · simp

/-! ## Claim C1: the freelist-reuse condition in `slottable__insert` -/

/-- Fresh-block garbage used by the concrete SlotTable evaluations. -/
def stGarbage : Nat → STItem Nat := fun _ => { hash := 0, next := 0, data := 0 }

/-- A table with a non-empty free chain: entries 0 and 2 live (hashes 8 and
16, both bucket 0 of 8), entry 1 a tombstone at the head of the free
chain. -/
def c1Table : STTable Nat :=
  { allocated := 8, used := 3, active := 2, next_free := 1,
    index := fun j => if j = 0 then 0 else SLOT_NONE_ID,
    entries := fun j =>
      if j = 0 then { hash := 8, next := 2, data := 10 }
      else if j = 1 then { hash := SLOT_NONE_ID, next := SLOT_NONE_ID, data := 0 }
      else if j = 2 then { hash := 16, next := SLOT_NONE_ID, data := 20 }
      else { hash := 0, next := 0, data := 0 } }

/-- C1: evaluation at the failing input.  The source's condition
`x != SLOT_NONE_ID && (flags & SLOTTABLE_ORDERED)` reuses the free chain
only when `ORDERED` *is* set — the opposite of the claim (and of the
comment right above it in slottable.h).  Non-ORDERED insert (flags = 0)
appends (id 3, `used` 3→4, `next_free` still 1); ORDERED insert
(flags = 1) pops the tombstone (id 1, `next_free` 1→`SLOT_NONE_ID`). -/
theorem slottable_insert_freelist_inverted :
    ((slottable__insert (some c1Table) 0 stGarbage).2 = 3 ∧
     (slottable__insert (some c1Table) 0 stGarbage).1.next_free = 1 ∧
     (slottable__insert (some c1Table) 0 stGarbage).1.used = 4) ∧
    ((slottable__insert (some c1Table) 1 stGarbage).2 = 1 ∧
     (slottable__insert (some c1Table) 1 stGarbage).1.next_free = SLOT_NONE_ID ∧
     (slottable__insert (some c1Table) 1 stGarbage).1.used = 3) :=
  ⟨⟨rfl, rfl, rfl⟩, ⟨rfl, rfl, rfl⟩⟩

/-! ## Claim C3: `slottable_remove` mutates the table on a miss -/

/-- A table holding the single live entry `{hash 1, data 5}` in bucket 1
of 2. -/
def c3Table : STTable Nat :=
  { allocated := 2, used := 1, active := 1, next_free := SLOT_NONE_ID,
    index := fun j => if j = 1 then 0 else SLOT_NONE_ID,
    entries := fun j =>
      if j = 0 then { hash := 1, next := SLOT_NONE_ID, data := 5 }
      else { hash := 0, next := 0, data := 0 } }

/-- C3: evaluation at the failing input.  `slottable_remove` has no
miss-check: looking up key 7 (hash 1) misses (`find` returns `NULL` /
`none`), yet the removal mutations run anyway — `active` drops 1→0 (and
the tombstone write lands at entry id `SLOT_NONE_ID`, far out of bounds) —
so the table is *not* left unchanged. -/
theorem slottable_remove_miss_mutates :
    (slottable_remove (some c3Table) 1 (fun k d => k == d) 7).2 = none ∧
    (slottable_remove (some c3Table) 1 (fun k d => k == d) 7).1.map STTable.active
      = some 0 ∧
    c3Table.active = 1 :=
  ⟨rfl, rfl, rfl⟩

/-! ## Claim C2: SlotMap stale-handle detection -/

/-- C2: `slotmap_at` succeeds exactly on an in-range index with matching
version, and immediately after a successful `slotmap_remove(h)` the same
handle misses: the overlay bumps the slot's 8-bit version to
`(v + 1) % 256 ≠ v`. -/
theorem slotmap_at_remove_spec (m : SlotMap) (h : Nat) (hlt : h < U32) :
    (slotmap_at (some m) h =
      if slotmap_index h < m.use ∧ (m.slots (slotmap_index h)).version = h / IDX_MOD
      then some (slotmap_index h) else none) ∧
    (slotmap_at (some m) h ≠ none →
      slotmap_at ((slotmap_remove (some m) h).1) h = none) := by
  constructor
  · unfold slotmap_at
    by_cases h1 : slotmap_index h < m.use
    · by_cases h2 : (m.slots (slotmap_index h)).version = h / IDX_MOD
      · simp [h1, h2]
      · simp [h1, h2]
    · simp [h1]
  · intro hne
    have hat : slotmap_at (some m) h = some (slotmap_index h) ∧
        slotmap_index h < m.use ∧
        (m.slots (slotmap_index h)).version = h / IDX_MOD := by
      unfold slotmap_at at hne ⊢
      by_cases h1 : slotmap_index h < m.use
      · by_cases h2 : (m.slots (slotmap_index h)).version = h / IDX_MOD
        · simp [h1, h2]
        · simp [h1, h2] at hne
      · simp [h1] at hne
    obtain ⟨hat, h1, h2⟩ := hat
    have hv : h / IDX_MOD < 256 := by
      have : h < U32 := hlt
      unfold U32 at this
      unfold IDX_MOD
      omega
    have hstep : (slotmap_remove (some m) h).1 = some
        { m with
            slots := fun j =>
              if j = slotmap_index h then
                { version := ((m.slots (slotmap_index h)).version + 1) % 256,
                  next24 := m.frl % IDX_MOD }
              else m.slots j,
            frl := slotmap_index h,
            frc := m.frc + 1 } := by
      simp only [slotmap_remove, hat]
    rw [hstep]
    have hneq : ((m.slots (slotmap_index h)).version + 1) % 256 ≠ h / IDX_MOD := by
      rw [h2]
      omega
    unfold slotmap_at
    simp [h1, hneq]

/-- A one-slot map whose slot 0 is live at version 0. -/
def c2Map : SlotMap :=
  { siz := 12, use := 1, frl := SLOT_NONE_ID, frc := 0,
    slots := fun _ => { version := 0, next24 := 0 } }

theorem slotmap_at_remove_spec_witness :
    slotmap_at ((slotmap_remove (some c2Map) 0).1) 0 = none :=
  (slotmap_at_remove_spec c2Map 0 (by decide)).2 (by decide)

/-! ## Claim C7: the hash-fixing rule is applied symmetrically -/

/-- C7: `slottable__fix_hash` maps the sentinel to `sentinel - 1` and never
produces the sentinel, and it is applied identically at insertion
(`slottable_add` stores `fix(hsh)` in the entry) and at lookup
(`slottable_find` walks bucket `fix(hsh) & (allocated-1)` comparing
against `fix(hsh)`), so an entry added under any user hash — the sentinel
included — is found again by `find` with the same user hash and key. -/
theorem slottable_fix_hash_symmetric {K D : Type} (t : STTable D) (hsh : Nat) (d : D)
    (cmp : K → D → Bool) (key : K) (g : Nat → STItem D)
    (hroom : t.used < t.allocated) (hcap : t.allocated ≤ SLOT_NONE_ID)
    (hcmp : cmp key d = true) :
    (∀ h, slottable__fix_hash h ≠ SLOT_NONE_ID) ∧
    slottable__fix_hash SLOT_NONE_ID = SLOT_NONE_ID - 1 ∧
    ((slottable_add (some t) hsh d 0 g).1.map
        (fun t2 => (t2.entries t.used).hash) = some (slottable__fix_hash hsh)) ∧
    slottable_find (slottable_add (some t) hsh d 0 g).1 cmp key hsh = some t.used := by
  have hfix : ∀ h, slottable__fix_hash h ≠ SLOT_NONE_ID := by
    intro h
    unfold slottable__fix_hash SLOT_NONE_ID
    split_ifs with hh
    · omega
    · exact hh
  have hflags : ¬(t.next_free ≠ SLOT_NONE_ID ∧ (0 : Nat) &&& SLOTTABLE_ORDERED ≠ 0) := by
    intro hcon
    exact hcon.2 rfl
  have hne : ¬ t.used = t.allocated := by omega
  have hins : slottable__insert (some t) (0 : Nat) g =
      ({ t with active := t.active + 1, used := t.used + 1 }, t.used) := by
    simp only [slottable__insert, if_neg hflags, if_neg hne]
  have hadd : slottable_add (some t) hsh d 0 g =
      (some { t with
                active := t.active + 1, used := t.used + 1,
                entries := fun j =>
                  if j = t.used then
                    { hash := slottable__fix_hash hsh,
                      next := t.index (slottable__fix_hash hsh &&& (t.allocated - 1)),
                      data := d }
                  else t.entries j,
                index := fun j =>
                  if j = slottable__fix_hash hsh &&& (t.allocated - 1) then t.used
                  else t.index j },
       t.used) := by
    unfold slottable_add
    rw [hins]
  have husedne : t.used ≠ SLOT_NONE_ID := by
    unfold SLOT_NONE_ID at hcap ⊢
    omega
  refine ⟨hfix, by unfold slottable__fix_hash; simp, ?_, ?_⟩
  · rw [hadd]
    simp
  · rw [hadd]
    unfold slottable_find
    simp only []
    unfold slottable_findAux
    simp [husedne, hcmp]

/-- An empty (but allocated) 8-bucket table. -/
def c7Table : STTable Nat :=
  { allocated := 8, used := 0, active := 0, next_free := SLOT_NONE_ID,
    index := fun _ => SLOT_NONE_ID,
    entries := fun _ => { hash := 0, next := 0, data := 0 } }

theorem slottable_fix_hash_symmetric_witness :
    slottable_find (slottable_add (some c7Table) SLOT_NONE_ID 42 0 stGarbage).1
      (fun k d => k == d) 42 SLOT_NONE_ID = some 0 ∧
    ((slottable_add (some c7Table) SLOT_NONE_ID 42 0 stGarbage).1.map
        (fun t2 => (t2.entries 0).hash) = some (SLOT_NONE_ID - 1)) :=
  ⟨(slottable_fix_hash_symmetric c7Table SLOT_NONE_ID 42 (fun k d => k == d) 42
      stGarbage (by decide) (by decide) (by decide)).2.2.2,
   (slottable_fix_hash_symmetric c7Table SLOT_NONE_ID 42 (fun k d => k == d) 42
      stGarbage (by decide) (by decide) (by decide)).2.2.1⟩

/-! ## Claim C5: compacting growth

Infrastructure: a chain predicate tying each rehashed bucket chain in the
new block to the old entries it copies, and an indexing helper pairing the
new dense ids (assigned `0, 1, 2, …` to the surviving entries in order)
with the old indices they came from. -/

/-- Walking `next` links from entry id `h` in the new array `es` visits
exactly the `(new id, old index)` pairs `pl`, the new entry at each step
carrying the old entry's `hash` and `data`, terminated by
`SLOT_NONE_ID`. -/
inductive STChainC {D : Type} (es old : Nat → STItem D) : Nat → List (Nat × Nat) → Prop
  | nil : STChainC es old SLOT_NONE_ID []
  | cons (k i : Nat) (tl : List (Nat × Nat)) :
      k ≠ SLOT_NONE_ID →
      (es k).hash = (old i).hash →
      (es k).data = (old i).data →
      STChainC es old (es k).next tl →
      STChainC es old k ((k, i) :: tl)

theorem STChainC_content {D : Type} {es old : Nat → STItem D} {h : Nat}
    {pl : List (Nat × Nat)} (hc : STChainC es old h pl) :
    ∀ p ∈ pl, (es p.1).hash = (old p.2).hash ∧ (es p.1).data = (old p.2).data := by
  induction hc with
  | nil => intro p hp; cases hp
  | cons k i tl hk hh hd htl ih =>
      intro p hp
      rcases List.mem_cons.1 hp with rfl | hp
      · exact ⟨hh, hd⟩
      · exact ih p hp

theorem STChainC_congr {D : Type} {es es' old : Nat → STItem D} {h : Nat}
    {pl : List (Nat × Nat)} (hc : STChainC es old h pl)
    (hstable : ∀ p ∈ pl, es' p.1 = es p.1) : STChainC es' old h pl := by
  induction hc with
  | nil => exact .nil
  | cons k i tl hk hh hd htl ih =>
      have hk' : es' k = es k := hstable (k, i) (List.mem_cons_self _ _)
      refine .cons k i tl hk ?_ ?_ ?_
      · rw [hk']; exact hh
      · rw [hk']; exact hd
      · rw [hk']
        exact ih (fun p hp => hstable p (List.mem_cons_of_mem _ hp))

/-- Pair each element of a list with its position, starting at `n`. -/
def tagFrom (n : Nat) : List Nat → List (Nat × Nat)
  | [] => []
  | a :: t => (n, a) :: tagFrom (n + 1) t

theorem tagFrom_append (n : Nat) (l : List Nat) (a : Nat) :
    tagFrom n (l ++ [a]) = tagFrom n l ++ [(n + l.length, a)] := by
  induction l generalizing n with
  | nil => simp [tagFrom]
  | cons x t ih =>
      simp only [List.cons_append, tagFrom, List.append_eq, ih, List.length_cons]
      have hn : n + 1 + t.length = n + (t.length + 1) := by omega
      rw [hn]

theorem mem_tagFrom {l : List Nat} {n : Nat} {p : Nat × Nat} :
    p ∈ tagFrom n l ↔ ∃ j, p.1 = n + j ∧ l.get? j = some p.2 := by
  induction l generalizing n with
  | nil => simp [tagFrom]
  | cons a t ih =>
      simp only [tagFrom, List.mem_cons]
      constructor
      · rintro (rfl | hmem)
        · exact ⟨0, by simp⟩
        · obtain ⟨j, hj1, hj2⟩ := ih.1 hmem
          exact ⟨j + 1, by omega, by simpa using hj2⟩
      · rintro ⟨j, hj1, hj2⟩
        cases j with
        | zero =>
            left
            have hp2 : some a = some p.2 := by simpa using hj2
            have hp2a : p.2 = a := by
              cases hp2
              rfl
            have hp1 : p.1 = n := by omega
            cases p
            simp_all
        | succ j =>
            right
            refine ih.2 ⟨j, by omega, ?_⟩
            simpa using hj2

theorem mem_tagFrom_zero {l : List Nat} {p : Nat × Nat} (hp : p ∈ tagFrom 0 l) :
    p.1 < l.length ∧ l.get? p.1 = some p.2 := by
  obtain ⟨j, hj1, hj2⟩ := mem_tagFrom.1 hp
  have hj : j = p.1 := by omega
  subst hj
  refine ⟨?_, hj2⟩
  by_contra hlen
  rw [List.get?_eq_none.2 (by omega)] at hj2
  cases hj2

theorem get?_mem_tagFrom_zero {l : List Nat} {j i : Nat} (hj : l.get? j = some i) :
    (j, i) ∈ tagFrom 0 l :=
  mem_tagFrom.2 ⟨j, by omega, hj⟩

/-- `List.find?` returns the unique element satisfying the predicate. -/
theorem find?_eq_some_of_unique {α : Type} {l : List α} {p : α → Bool} {x : α}
    (hx : x ∈ l) (hpx : p x = true) (huniq : ∀ y ∈ l, p y = true → y = x) :
    l.find? p = some x := by
  induction l with
  | nil => cases hx
  | cons a t ih =>
      by_cases hpa : p a = true
      · have hax : a = x := huniq a (List.mem_cons_self _ _) hpa
        subst hax
        rw [List.find?_cons_of_pos _ hpa]
      · have hxt : x ∈ t := by
          rcases List.mem_cons.1 hx with h | h
          · subst h
            exact absurd hpx hpa
          · exact h
        rw [List.find?_cons_of_neg _ (by simpa using hpa)]
        exact ih hxt (fun y hy hpy => huniq y (List.mem_cons_of_mem _ hy) hpy)

/-- The indices of the live entries among the first `u` old entries, in
order; survivor number `k` of the copy loop is old index `(liveIdx es u).get k`. -/
def liveIdx {D : Type} (es : Nat → STItem D) (u : Nat) : List Nat :=
  (List.range u).filter (fun i => decide ((es i).hash ≠ SLOT_NONE_ID))

theorem liveIdx_nodup {D : Type} (es : Nat → STItem D) (u : Nat) :
    (liveIdx es u).Nodup :=
  (List.nodup_range u).filter _

theorem mem_liveIdx {D : Type} {es : Nat → STItem D} {u i : Nat} :
    i ∈ liveIdx es u ↔ i < u ∧ (es i).hash ≠ SLOT_NONE_ID := by
  unfold liveIdx
  simp [List.mem_filter, List.mem_range]

theorem liveIdx_succ_live {D : Type} {es : Nat → STItem D} {u : Nat}
    (h : (es u).hash ≠ SLOT_NONE_ID) :
    liveIdx es (u + 1) = liveIdx es u ++ [u] := by
  unfold liveIdx
  rw [List.range_succ, List.filter_append]
  simp [h]

theorem liveIdx_succ_dead {D : Type} {es : Nat → STItem D} {u : Nat}
    (h : (es u).hash = SLOT_NONE_ID) :
    liveIdx es (u + 1) = liveIdx es u := by
  unfold liveIdx
  rw [List.range_succ, List.filter_append]
  simp [h]

theorem liveIdx_length_le {D : Type} (es : Nat → STItem D) (u : Nat) :
    (liveIdx es u).length ≤ u := by
  calc (liveIdx es u).length ≤ (List.range u).length := List.length_filter_le _ _
    _ = u := List.length_range u

/-- The old indices of the entries the copy loop carries into the new
block: under `FIXED_ID` every entry of `[0, u)` (tombstones included, so
dense ids are preserved), otherwise only the live ones.  Survivor number
`k` lands at new dense id `k`. -/
def survIdx {D : Type} (flags : Nat) (es : Nat → STItem D) (u : Nat) : List Nat :=
  if flags &&& SLOTTABLE_FIXED_ID ≠ 0 then List.range u else liveIdx es u

theorem survIdx_nodup {D : Type} (flags : Nat) (es : Nat → STItem D) (u : Nat) :
    (survIdx flags es u).Nodup := by
  unfold survIdx
  split
  · exact List.nodup_range u
  · exact liveIdx_nodup es u

theorem mem_survIdx_lt {D : Type} {flags : Nat} {es : Nat → STItem D} {u i : Nat}
    (hi : i ∈ survIdx flags es u) : i < u := by
  unfold survIdx at hi
  split at hi
  · exact List.mem_range.1 hi
  · exact (mem_liveIdx.1 hi).1

theorem mem_survIdx_of_live {D : Type} {flags : Nat} {es : Nat → STItem D} {u i : Nat}
    (hilt : i < u) (hlive : (es i).hash ≠ SLOT_NONE_ID) : i ∈ survIdx flags es u := by
  unfold survIdx
  split
  · exact List.mem_range.2 hilt
  · exact mem_liveIdx.2 ⟨hilt, hlive⟩

theorem survIdx_length_le {D : Type} (flags : Nat) (es : Nat → STItem D) (u : Nat) :
    (survIdx flags es u).length ≤ u := by
  unfold survIdx
  split
  · rw [List.length_range]
  · exact liveIdx_length_le es u

theorem survIdx_succ_live {D : Type} (flags : Nat) {es : Nat → STItem D} {u : Nat}
    (hlive : (es u).hash ≠ SLOT_NONE_ID) :
    survIdx flags es (u + 1) = survIdx flags es u ++ [u] := by
  unfold survIdx
  split
  · exact List.range_succ u
  · exact liveIdx_succ_live hlive

theorem survIdx_succ_fixed {D : Type} {flags : Nat} (es : Nat → STItem D) {u : Nat}
    (hf : flags &&& SLOTTABLE_FIXED_ID ≠ 0) :
    survIdx flags es (u + 1) = survIdx flags es u ++ [u] := by
  unfold survIdx
  rw [if_pos hf, if_pos hf]
  exact List.range_succ u

theorem survIdx_succ_dead {D : Type} {flags : Nat} {es : Nat → STItem D} {u : Nat}
    (hf : flags &&& SLOTTABLE_FIXED_ID = 0) (hdead : (es u).hash = SLOT_NONE_ID) :
    survIdx flags es (u + 1) = survIdx flags es u := by
  unfold survIdx
  rw [if_neg (not_not_intro hf), if_neg (not_not_intro hf)]
  exact liveIdx_succ_dead hdead

/-- The `(new id, old index)` pairs of the *live* survivors that hash into
bucket `b` of the new block, in chain (most-recently-linked-first) order.
Tombstones copied under `FIXED_ID` occupy dense ids but are linked into no
bucket. -/
def bucketPairs {D : Type} (flags : Nat) (es : Nat → STItem D) (u newsiz b : Nat) :
    List (Nat × Nat) :=
  ((tagFrom 0 (survIdx flags es u)).filter
    (fun p => decide ((es p.2).hash ≠ SLOT_NONE_ID ∧
      (es p.2).hash &&& (newsiz - 1) = b))).reverse

theorem mem_bucketPairs {D : Type} {flags : Nat} {es : Nat → STItem D}
    {u newsiz b : Nat} {p : Nat × Nat} (hp : p ∈ bucketPairs flags es u newsiz b) :
    p ∈ tagFrom 0 (survIdx flags es u) ∧ (es p.2).hash ≠ SLOT_NONE_ID ∧
      (es p.2).hash &&& (newsiz - 1) = b := by
  unfold bucketPairs at hp
  rw [List.mem_reverse, List.mem_filter] at hp
  refine ⟨hp.1, ?_⟩
  have := hp.2
  simpa using this

theorem tagFrom_length (n : Nat) (l : List Nat) : (tagFrom n l).length = l.length := by
  induction l generalizing n with
  | nil => rfl
  | cons a t ih => simp [tagFrom, ih]

theorem bucketPairs_length_le {D : Type} (flags : Nat) (es : Nat → STItem D)
    (u newsiz b : Nat) :
    (bucketPairs flags es u newsiz b).length ≤ (survIdx flags es u).length := by
  unfold bucketPairs
  rw [List.length_reverse]
  calc ((tagFrom 0 (survIdx flags es u)).filter _).length
      ≤ (tagFrom 0 (survIdx flags es u)).length := List.length_filter_le _ _
    _ = (survIdx flags es u).length := tagFrom_length _ _

/-- `slottable_findAux` over a chain returns the first chain member whose
new entry matches the fixed hash and the key, given enough fuel to walk
the whole chain. -/
theorem findAux_of_chainC {K D : Type} {es old : Nat → STItem D} {cmp : K → D → Bool}
    {key : K} {hsh : Nat} {h : Nat} {pl : List (Nat × Nat)}
    (hc : STChainC es old h pl) :
    ∀ fuel, pl.length < fuel →
      slottable_findAux es cmp key hsh fuel h =
        (pl.find? (fun p => decide (hsh = (es p.1).hash) && cmp key (es p.1).data)).map
          Prod.fst := by
  induction hc with
  | nil =>
      intro fuel hfuel
      cases fuel with
      | zero => omega
      | succ f => simp [slottable_findAux]
  | cons k i tl hk hh hd htl ih =>
      intro fuel hfuel
      cases fuel with
      | zero => omega
      | succ f =>
          simp only [slottable_findAux, if_neg hk]
          by_cases hmatch : hsh = (es k).hash ∧ cmp key (es k).data = true
          · rw [if_pos hmatch, List.find?_cons_of_pos]
            · rfl
            · simp only [Bool.and_eq_true, decide_eq_true_eq]
              exact hmatch
          · rw [if_neg hmatch, List.find?_cons_of_neg]
            · exact ih f (by simpa using hfuel)
            · simp only [Bool.and_eq_true, decide_eq_true_eq]
              exact hmatch

/-- The copy-and-rehash loop of `slottable__insert` after processing the
first `u` old entries. -/
def growAccAt {D : Type} (flags newsiz : Nat) (es g : Nat → STItem D) (u : Nat) :
    GrowAcc D :=
  slottable__growLoop flags newsiz es u
    { index := fun _ => SLOT_NONE_ID, entries := g, newid := 0, newactive := 0 }

theorem growAccAt_succ {D : Type} (flags newsiz : Nat) (es g : Nat → STItem D)
    (u : Nat) :
    growAccAt flags newsiz es g (u + 1) =
      slottable__growStep flags newsiz (growAccAt flags newsiz es g u) (es u) := by
  unfold growAccAt slottable__growLoop
  rw [List.range_succ, List.foldl_append]
  rfl

theorem survIdx_zero {D : Type} (flags : Nat) (es : Nat → STItem D) :
    survIdx flags es 0 = [] := by
  unfold survIdx
  split <;> rfl

/-- Invariant of the copy-and-rehash loop, any flags: after `u` old
entries, the copied entries are exactly the survivors (live ones, plus
tombstones under `FIXED_ID`), dense ids assigned in order, `newactive`
counts the live ones, and every new bucket holds a well-formed chain of
exactly its live survivors in LIFO order. -/
theorem growAccAt_inv {D : Type} (es g : Nat → STItem D) (flags newsiz used : Nat)
    (hused : used ≤ SLOT_NONE_ID) :
    ∀ u, u ≤ used →
      (growAccAt flags newsiz es g u).newid = (survIdx flags es u).length ∧
      (growAccAt flags newsiz es g u).newactive = (liveIdx es u).length ∧
      ∀ b, STChainC (growAccAt flags newsiz es g u).entries es
        ((growAccAt flags newsiz es g u).index b) (bucketPairs flags es u newsiz b) := by
  intro u
  induction u with
  | zero =>
      intro _
      refine ⟨by rw [survIdx_zero]; rfl, rfl, ?_⟩
      intro b
      have hbp : bucketPairs flags es 0 newsiz b = [] := by
        unfold bucketPairs
        rw [survIdx_zero]
        rfl
      rw [hbp]
      exact .nil
  | succ u ih =>
      intro hu1
      obtain ⟨hnid, hnact, hchains⟩ := ih (by omega)
      have hlen_lt : (survIdx flags es u).length < SLOT_NONE_ID := by
        have h1 := survIdx_length_le flags es u
        unfold SLOT_NONE_ID at hused ⊢
        omega
      rw [growAccAt_succ]
      by_cases hlive : (es u).hash ≠ SLOT_NONE_ID
      · -- a live old entry: appended as survivor `newid` and linked at the
        -- head of its new bucket
        have hS : survIdx flags es (u + 1) = survIdx flags es u ++ [u] :=
          survIdx_succ_live flags hlive
        have hL : liveIdx es (u + 1) = liveIdx es u ++ [u] := liveIdx_succ_live hlive
        unfold slottable__growStep
        rw [if_pos hlive]
        dsimp only
        have htag : tagFrom 0 (survIdx flags es (u + 1)) =
            tagFrom 0 (survIdx flags es u) ++ [((survIdx flags es u).length, u)] := by
          rw [hS, tagFrom_append]
          simp
        refine ⟨?_, ?_, ?_⟩
        · simp only [hS, List.length_append, List.length_singleton, hnid]
        · simp only [hL, List.length_append, List.length_singleton, hnact]
        · intro b
          have hcongr : ∀ pl : List (Nat × Nat),
              STChainC (growAccAt flags newsiz es g u).entries es
                ((growAccAt flags newsiz es g u).index b) pl →
              (∀ p ∈ pl, p ∈ tagFrom 0 (survIdx flags es u)) →
              STChainC
                (fun j => if j = (growAccAt flags newsiz es g u).newid then
                    { hash := (es u).hash,
                      next := (growAccAt flags newsiz es g u).index
                        ((es u).hash &&& (newsiz - 1)),
                      data := (es u).data }
                  else (growAccAt flags newsiz es g u).entries j) es
                ((growAccAt flags newsiz es g u).index b) pl := by
            intro pl hc hmem
            refine STChainC_congr hc ?_
            intro p hp
            have hplt : p.1 < (survIdx flags es u).length :=
              (mem_tagFrom_zero (hmem p hp)).1
            have hne : p.1 ≠ (growAccAt flags newsiz es g u).newid := by
              rw [hnid]
              exact Nat.ne_of_lt hplt
            simp [hne]
          by_cases hb : (es u).hash &&& (newsiz - 1) = b
          · -- the bucket that receives the new survivor
            subst hb
            have hbp : bucketPairs flags es (u + 1) newsiz
                  ((es u).hash &&& (newsiz - 1)) =
                ((survIdx flags es u).length, u) ::
                  bucketPairs flags es u newsiz ((es u).hash &&& (newsiz - 1)) := by
              unfold bucketPairs
              rw [htag, List.filter_append, List.reverse_append]
              simp [hlive]
            rw [hbp, ← hnid]
            simp only [eq_self_iff_true, if_true]
            refine STChainC.cons _ _ _ ?_ ?_ ?_ ?_
            · rw [hnid]
              exact Nat.ne_of_lt hlen_lt
            · simp
            · simp
            · simp only [eq_self_iff_true, if_true]
              refine hcongr _ (hchains _) ?_
              intro p hp
              exact (mem_bucketPairs hp).1
          · -- every other bucket is untouched
            have hbp : bucketPairs flags es (u + 1) newsiz b =
                bucketPairs flags es u newsiz b := by
              unfold bucketPairs
              rw [htag, List.filter_append, List.reverse_append]
              simp [hb]
            rw [hbp]
            have hidx : (if b = (es u).hash &&& (newsiz - 1) then
                  (growAccAt flags newsiz es g u).newid
                else (growAccAt flags newsiz es g u).index b)
                = (growAccAt flags newsiz es g u).index b := by
              rw [if_neg (fun hcon => hb hcon.symm)]
            rw [hidx]
            refine hcongr _ (hchains b) ?_
            intro p hp
            exact (mem_bucketPairs hp).1
      · -- a tombstone
        have hdead : (es u).hash = SLOT_NONE_ID := by
          by_contra hcon
          exact hlive hcon
        have hL : liveIdx es (u + 1) = liveIdx es u := liveIdx_succ_dead hdead
        by_cases hf : flags &&& SLOTTABLE_FIXED_ID ≠ 0
        · -- FIXED_ID: the tombstone is copied verbatim at the next dense
          -- id but linked into no bucket
          have hS : survIdx flags es (u + 1) = survIdx flags es u ++ [u] :=
            survIdx_succ_fixed es hf
          have htag : tagFrom 0 (survIdx flags es (u + 1)) =
              tagFrom 0 (survIdx flags es u) ++ [((survIdx flags es u).length, u)] := by
            rw [hS, tagFrom_append]
            simp
          have hbp : ∀ b, bucketPairs flags es (u + 1) newsiz b =
              bucketPairs flags es u newsiz b := by
            intro b
            unfold bucketPairs
            rw [htag, List.filter_append, List.reverse_append]
            simp [hdead]
          unfold slottable__growStep
          rw [if_neg hlive, if_pos hf]
          dsimp only
          refine ⟨?_, ?_, ?_⟩
          · simp only [hS, List.length_append, List.length_singleton, hnid]
          · rw [hL, hnact]
          · intro b
            rw [hbp b]
            refine STChainC_congr (hchains b) ?_
            intro p hp
            have hplt : p.1 < (survIdx flags es u).length :=
              (mem_tagFrom_zero (mem_bucketPairs hp).1).1
            have hne : p.1 ≠ (growAccAt flags newsiz es g u).newid := by
              rw [hnid]
              exact Nat.ne_of_lt hplt
            simp [hne]
        · -- non-FIXED_ID: skipped, accumulator unchanged
          push_neg at hf
          have hS : survIdx flags es (u + 1) = survIdx flags es u :=
            survIdx_succ_dead hf hdead
          have hbp : ∀ b, bucketPairs flags es (u + 1) newsiz b =
              bucketPairs flags es u newsiz b := by
            intro b
            unfold bucketPairs
            rw [hS]
          unfold slottable__growStep
          rw [if_neg hlive, if_neg (by simp [hf])]
          rw [hS, hL]
          refine ⟨hnid, hnact, ?_⟩
          intro b
          rw [hbp b]
          exact hchains b

/-- C5: compacting growth, any flags.  After the growth pass of
`slottable__insert`, the new block contains no tombstone entries unless
`FIXED_ID` is set, `active` is preserved (given the standing invariant
that `active` counts the live entries of the dense array), and every live
entry survives: `find` with its stored hash and its key — unique among
live entries — returns an entry carrying the same hash and data. -/
theorem slottable_compaction {K D : Type} (tbl : STTable D) (flags : Nat)
    (cmp : K → D → Bool) (key : K) (g : Nat → STItem D) (i : Nat)
    (hused : tbl.used ≤ SLOT_NONE_ID)
    (hactive : tbl.active = (liveIdx tbl.entries tbl.used).length)
    (hi : i < tbl.used)
    (hlive : (tbl.entries i).hash ≠ SLOT_NONE_ID)
    (hkey : cmp key (tbl.entries i).data = true)
    (huniq : ∀ j, j < tbl.used → j ≠ i → (tbl.entries j).hash ≠ SLOT_NONE_ID →
      ¬((tbl.entries j).hash = (tbl.entries i).hash ∧ cmp key (tbl.entries j).data = true)) :
    (flags &&& SLOTTABLE_FIXED_ID = 0 →
      ∀ j, j < (slottable__grow (some tbl) flags g).used →
        ((slottable__grow (some tbl) flags g).entries j).hash ≠ SLOT_NONE_ID) ∧
    (slottable__grow (some tbl) flags g).active = tbl.active ∧
    ∃ k, slottable_find (some (slottable__grow (some tbl) flags g)) cmp key
        (tbl.entries i).hash = some k ∧
      ((slottable__grow (some tbl) flags g).entries k).hash = (tbl.entries i).hash ∧
      ((slottable__grow (some tbl) flags g).entries k).data = (tbl.entries i).data := by
  obtain ⟨hnid, hnact, hchains⟩ :=
    growAccAt_inv tbl.entries g flags (SLOT_DOUBLE_SIZE tbl.allocated) tbl.used
      hused tbl.used (Nat.le_refl _)
  have hgrow : slottable__grow (some tbl) flags g =
      { allocated := SLOT_DOUBLE_SIZE tbl.allocated,
        used := (growAccAt flags (SLOT_DOUBLE_SIZE tbl.allocated) tbl.entries g
          tbl.used).newid,
        active := (growAccAt flags (SLOT_DOUBLE_SIZE tbl.allocated) tbl.entries g
          tbl.used).newactive,
        next_free := if flags &&& SLOTTABLE_FIXED_ID ≠ 0 then tbl.next_free
          else SLOT_NONE_ID,
        index := (growAccAt flags (SLOT_DOUBLE_SIZE tbl.allocated) tbl.entries g
          tbl.used).index,
        entries := (growAccAt flags (SLOT_DOUBLE_SIZE tbl.allocated) tbl.entries g
          tbl.used).entries } := by
    unfold slottable__grow growAccAt slottable_allocated
    rfl
  rw [hgrow]
  dsimp only
  refine ⟨?_, ?_, ?_⟩
  · -- no tombstones in the new block when not FIXED_ID
    intro hf0 j hj
    have hsurv : survIdx flags tbl.entries tbl.used = liveIdx tbl.entries tbl.used := by
      unfold survIdx
      rw [if_neg (not_not_intro hf0)]
    rw [hnid, hsurv] at hj
    have hij : (liveIdx tbl.entries tbl.used).get? j =
        some ((liveIdx tbl.entries tbl.used).get ⟨j, hj⟩) := List.get?_eq_get hj
    set ij := (liveIdx tbl.entries tbl.used).get ⟨j, hj⟩ with hijdef
    have hijmem : ij ∈ liveIdx tbl.entries tbl.used := List.get_mem _ _ _
    have hijlive : (tbl.entries ij).hash ≠ SLOT_NONE_ID := (mem_liveIdx.1 hijmem).2
    have hbp : (j, ij) ∈ bucketPairs flags tbl.entries tbl.used
        (SLOT_DOUBLE_SIZE tbl.allocated)
        ((tbl.entries ij).hash &&& (SLOT_DOUBLE_SIZE tbl.allocated - 1)) := by
      unfold bucketPairs
      rw [List.mem_reverse, List.mem_filter]
      refine ⟨?_, by simp [hijlive]⟩
      rw [hsurv]
      exact get?_mem_tagFrom_zero hij
    have hcontent := STChainC_content (hchains _) _ hbp
    rw [hcontent.1]
    exact hijlive
  · -- active preserved
    rw [hnact, hactive]
  · -- the target entry is still found
    have himem : i ∈ survIdx flags tbl.entries tbl.used :=
      mem_survIdx_of_live hi hlive
    obtain ⟨k, hk⟩ := List.get?_of_mem himem
    have hkmem : (k, i) ∈ tagFrom 0 (survIdx flags tbl.entries tbl.used) :=
      get?_mem_tagFrom_zero hk
    have hklt : k < (survIdx flags tbl.entries tbl.used).length :=
      (mem_tagFrom_zero hkmem).1
    have hbp : (k, i) ∈ bucketPairs flags tbl.entries tbl.used
        (SLOT_DOUBLE_SIZE tbl.allocated)
        ((tbl.entries i).hash &&& (SLOT_DOUBLE_SIZE tbl.allocated - 1)) := by
      unfold bucketPairs
      rw [List.mem_reverse, List.mem_filter]
      exact ⟨hkmem, by simp [hlive]⟩
    have hcontent := STChainC_content (hchains _) _ hbp
    have hfuel : (bucketPairs flags tbl.entries tbl.used
        (SLOT_DOUBLE_SIZE tbl.allocated)
        ((tbl.entries i).hash &&& (SLOT_DOUBLE_SIZE tbl.allocated - 1))).length
        < (growAccAt flags (SLOT_DOUBLE_SIZE tbl.allocated) tbl.entries g
            tbl.used).newid + 1 := by
      rw [hnid]
      have := bucketPairs_length_le flags tbl.entries tbl.used
        (SLOT_DOUBLE_SIZE tbl.allocated)
        ((tbl.entries i).hash &&& (SLOT_DOUBLE_SIZE tbl.allocated - 1))
      omega
    have hfix2 : slottable__fix_hash (tbl.entries i).hash = (tbl.entries i).hash :=
      if_neg hlive
    have hfind : slottable_find
        (some { allocated := SLOT_DOUBLE_SIZE tbl.allocated,
                used := (growAccAt flags (SLOT_DOUBLE_SIZE tbl.allocated) tbl.entries g
                  tbl.used).newid,
                active := (growAccAt flags (SLOT_DOUBLE_SIZE tbl.allocated) tbl.entries g
                  tbl.used).newactive,
                next_free := if flags &&& SLOTTABLE_FIXED_ID ≠ 0 then tbl.next_free
                  else SLOT_NONE_ID,
                index := (growAccAt flags (SLOT_DOUBLE_SIZE tbl.allocated) tbl.entries g
                  tbl.used).index,
                entries := (growAccAt flags (SLOT_DOUBLE_SIZE tbl.allocated) tbl.entries g
                  tbl.used).entries })
        cmp key (tbl.entries i).hash
        = ((bucketPairs flags tbl.entries tbl.used (SLOT_DOUBLE_SIZE tbl.allocated)
            ((tbl.entries i).hash &&& (SLOT_DOUBLE_SIZE tbl.allocated - 1))).find?
            (fun p => decide ((tbl.entries i).hash =
                ((growAccAt flags (SLOT_DOUBLE_SIZE tbl.allocated) tbl.entries g
                  tbl.used).entries p.1).hash)
              && cmp key ((growAccAt flags (SLOT_DOUBLE_SIZE tbl.allocated) tbl.entries g
                  tbl.used).entries p.1).data)).map Prod.fst := by
      unfold slottable_find
      dsimp only
      rw [hfix2]
      exact findAux_of_chainC (hchains _) _ hfuel
    rw [hfind]
    have hpred : (fun p => decide ((tbl.entries i).hash =
            ((growAccAt flags (SLOT_DOUBLE_SIZE tbl.allocated) tbl.entries g
              tbl.used).entries p.1).hash)
          && cmp key ((growAccAt flags (SLOT_DOUBLE_SIZE tbl.allocated) tbl.entries g
              tbl.used).entries p.1).data) (k, i) = true := by
      simp only [Bool.and_eq_true, decide_eq_true_eq]
      refine ⟨hcontent.1.symm, ?_⟩
      rw [hcontent.2]
      exact hkey
    have huniq2 : ∀ q ∈ bucketPairs flags tbl.entries tbl.used
        (SLOT_DOUBLE_SIZE tbl.allocated)
        ((tbl.entries i).hash &&& (SLOT_DOUBLE_SIZE tbl.allocated - 1)),
        (fun p => decide ((tbl.entries i).hash =
            ((growAccAt flags (SLOT_DOUBLE_SIZE tbl.allocated) tbl.entries g
              tbl.used).entries p.1).hash)
          && cmp key ((growAccAt flags (SLOT_DOUBLE_SIZE tbl.allocated) tbl.entries g
              tbl.used).entries p.1).data) q = true → q = (k, i) := by
      rintro ⟨k2, i2⟩ hq hpq
      obtain ⟨hq_tag, hi2live, -⟩ := mem_bucketPairs hq
      have hq2 := mem_tagFrom_zero hq_tag
      have hi2mem : i2 ∈ survIdx flags tbl.entries tbl.used := List.get?_mem hq2.2
      have hi2lt : i2 < tbl.used := mem_survIdx_lt hi2mem
      have hqcontent := STChainC_content (hchains _) _ hq
      simp only [Bool.and_eq_true, decide_eq_true_eq] at hpq
      have hhash2 : (tbl.entries i2).hash = (tbl.entries i).hash := by
        rw [← hqcontent.1]
        exact hpq.1.symm
      have hcmp2 : cmp key (tbl.entries i2).data = true := by
        rw [← hqcontent.2]
        exact hpq.2
      have hii : i2 = i := by
        by_contra hne
        exact huniq i2 hi2lt hne hi2live ⟨hhash2, hcmp2⟩
      subst hii
      have hkk : k2 = k := by
        refine List.getElem?_inj (by exact_mod_cast hq2.1) (survIdx_nodup _ _ _) ?_
        rw [← List.get?_eq_getElem?, ← List.get?_eq_getElem?, hq2.2, hk]
      subst hkk
      rfl
    rw [find?_eq_some_of_unique hbp hpred huniq2]
    exact ⟨k, rfl, hcontent.1, hcontent.2⟩

/-- A full 2-entry table about to grow: entry 0 live `{hash 3, data 7}`,
entry 1 a tombstone. -/
def c5Table : STTable Nat :=
  { allocated := 2, used := 2, active := 1, next_free := SLOT_NONE_ID,
    index := fun j => if j = 1 then 0 else SLOT_NONE_ID,
    entries := fun j =>
      if j = 0 then { hash := 3, next := SLOT_NONE_ID, data := 7 }
      else if j = 1 then { hash := SLOT_NONE_ID, next := SLOT_NONE_ID, data := 0 }
      else { hash := 0, next := 0, data := 0 } }

theorem slottable_compaction_witness :
    ((((slottable__grow (some c5Table) 0 stGarbage).entries 0).hash ≠ SLOT_NONE_ID) ∧
     (slottable__grow (some c5Table) 0 stGarbage).active = 1 ∧
     ∃ k, slottable_find (some (slottable__grow (some c5Table) 0 stGarbage))
         (fun a b : Nat => a == b) 7 3 = some k ∧
       ((slottable__grow (some c5Table) 0 stGarbage).entries k).hash = 3 ∧
       ((slottable__grow (some c5Table) 0 stGarbage).entries k).data = 7) ∧
    ((slottable__grow (some c5Table) SLOTTABLE_FIXED_ID stGarbage).active = 1 ∧
     ∃ k, slottable_find (some (slottable__grow (some c5Table) SLOTTABLE_FIXED_ID
           stGarbage))
         (fun a b : Nat => a == b) 7 3 = some k ∧
       ((slottable__grow (some c5Table) SLOTTABLE_FIXED_ID stGarbage).entries k).hash
         = 3 ∧
       ((slottable__grow (some c5Table) SLOTTABLE_FIXED_ID stGarbage).entries k).data
         = 7) :=
  ⟨⟨(slottable_compaction c5Table 0 (fun a b : Nat => a == b) 7 stGarbage 0
       (by decide) (by decide) (by decide) (by decide) (by decide)
       (by decide)).1 (by decide) 0 (by decide),
    (slottable_compaction c5Table 0 (fun a b : Nat => a == b) 7 stGarbage 0
       (by decide) (by decide) (by decide) (by decide) (by decide)
       (by decide)).2.1,
    (slottable_compaction c5Table 0 (fun a b : Nat => a == b) 7 stGarbage 0
       (by decide) (by decide) (by decide) (by decide) (by decide)
       (by decide)).2.2⟩,
   ⟨(slottable_compaction c5Table SLOTTABLE_FIXED_ID (fun a b : Nat => a == b) 7
       stGarbage 0 (by decide) (by decide) (by decide) (by decide) (by decide)
       (by decide)).2.1,
    (slottable_compaction c5Table SLOTTABLE_FIXED_ID (fun a b : Nat => a == b) 7
       stGarbage 0 (by decide) (by decide) (by decide) (by decide) (by decide)
       (by decide)).2.2⟩⟩

/-! ## Claim C6: SlotMap accounting

The free chain of a map: walk `next_free` links from `frl`, stopping at a
head whose 24-bit index is `SLOTMAP_MAX_ID` (the emptiness test of
`slotmap__make` and `slotmap_burn`).  The walk reads the slot at the raw
head value, exactly like `slotmap_array(arr) + (x * itemsize)`.  Fuel
`frc + 1` suffices for any chain that actually has `frc` members; `none`
stands for a walk that does not reach the sentinel in that many steps
(e.g. a cycle). -/
def smFreeChainAux (slots : Nat → SMSlot) : Nat → Nat → Option (List Nat)
  | 0, _ => none
  | fuel + 1, head =>
      if slotmap_index head = SLOTMAP_MAX_ID then some []
      else
        match smFreeChainAux slots fuel ((slots head).next24) with
        | some L => some (head :: L)
        | none => none

/-- The free chain of a map, walked with fuel `frc + 1`. -/
def smFreeChain (m : SlotMap) : Option (List Nat) :=
  smFreeChainAux m.slots (m.frc + 1) m.frl

/-- The states reachable from the null map by arbitrary `slotmap_add`,
`slotmap_copy` and `slotmap_remove` calls — `remove` with *any* 32-bit
handle, as the claim's "any sequence of operations" permits. -/
inductive SMReachAny (itemsize : Nat) (g : Nat → SMSlot) : Option SlotMap → Prop
  | nil : SMReachAny itemsize g none
  | add (a : Option SlotMap) : SMReachAny itemsize g a →
      SMReachAny itemsize g (slotmap_add itemsize g a).1
  | copy (a : Option SlotMap) : SMReachAny itemsize g a →
      SMReachAny itemsize g (slotmap_copy itemsize g a).1
  | rem (a : Option SlotMap) (id : Nat) : SMReachAny itemsize g a →
      SMReachAny itemsize g (slotmap_remove a id).1

/-- Zeroed fresh-block garbage for the concrete SlotMap runs. -/
def smG : Nat → SMSlot := fun _ => { version := 0, next24 := 0 }

/-- add; remove handle 0; remove the forged handle `(version 1, index 0)`:
the second remove passes the version check *against the freelist overlay*
of the freed slot 0 (whose overlay version is 1), so slot 0 is pushed onto
the free chain a second time, producing the self-loop `0 → 0`. -/
def c6Bad : Option SlotMap :=
  (slotmap_remove ((slotmap_remove ((slotmap_add 8 smG none).1) 0).1) 16777216).1

/-- C6 counterexample: after the double-free via a forged (ABA) handle the
state is reachable by add/remove calls, `free_count = 2`, but the free
chain is a self-loop that never reaches the sentinel — its length is not
`free_count` (the walk finds no terminated chain at all). -/
theorem slotmap_accounting_counterexample :
    SMReachAny 8 smG c6Bad ∧
    c6Bad.map SlotMap.frc = some 2 ∧
    c6Bad.map smFreeChain = some none :=
  ⟨SMReachAny.rem _ 16777216 (SMReachAny.rem _ 0 (SMReachAny.add _ SMReachAny.nil)),
   rfl, rfl⟩

theorem sub32_of_le {a b : Nat} (hba : b ≤ a) (ha : a < U32) : sub32 a b = a - b := by
  unfold sub32 U32 at *
  omega

theorem nodup_lt_length_le {L : List Nat} {n : Nat} (hnd : L.Nodup)
    (hlt : ∀ i ∈ L, i < n) : L.length ≤ n := by
  have hsub : L ⊆ List.range n := by
    intro i hi
    rw [List.mem_range]
    exact hlt i hi
  calc L.length ≤ (List.range n).length := (hnd.subperm hsub).length_le
    _ = n := List.length_range n

theorem smFreeChainAux_congr {slots slots' : Nat → SMSlot} :
    ∀ fuel head L, smFreeChainAux slots fuel head = some L →
      (∀ i ∈ L, slots' i = slots i) →
      smFreeChainAux slots' fuel head = some L := by
  intro fuel
  induction fuel with
  | zero =>
      intro head L h
      simp [smFreeChainAux] at h
  | succ f ih =>
      intro head L h hst
      unfold smFreeChainAux at h ⊢
      by_cases hs : slotmap_index head = SLOTMAP_MAX_ID
      · rw [if_pos hs] at h ⊢
        exact h
      · rw [if_neg hs] at h ⊢
        cases hrec : smFreeChainAux slots f ((slots head).next24) with
        | none => rw [hrec] at h; cases h
        | some L' =>
            rw [hrec] at h
            cases h
            have hhead : slots' head = slots head :=
              hst head (List.mem_cons_self _ _)
            rw [hhead,
              ih _ _ hrec (fun i hi => hst i (List.mem_cons_of_mem _ hi))]

theorem smFreeChainAux_mono {slots : Nat → SMSlot} :
    ∀ fuel fuel' head L, smFreeChainAux slots fuel head = some L → fuel ≤ fuel' →
      smFreeChainAux slots fuel' head = some L := by
  intro fuel
  induction fuel with
  | zero =>
      intro fuel' head L h
      simp [smFreeChainAux] at h
  | succ f ih =>
      intro fuel' head L h hle
      cases fuel' with
      | zero => omega
      | succ f2 =>
          unfold smFreeChainAux at h ⊢
          by_cases hs : slotmap_index head = SLOTMAP_MAX_ID
          · rw [if_pos hs] at h ⊢
            exact h
          · rw [if_neg hs] at h ⊢
            cases hrec : smFreeChainAux slots f ((slots head).next24) with
            | none => rw [hrec] at h; cases h
            | some L' =>
                rw [hrec] at h
                cases h
                rw [ih f2 _ _ hrec (by omega)]

theorem smFreeChainAux_cons {slots : Nat → SMSlot} {f head : Nat} {L : List Nat}
    (h : smFreeChainAux slots (f + 1) head = some L)
    (hs : slotmap_index head ≠ SLOTMAP_MAX_ID) :
    ∃ L', L = head :: L' ∧ smFreeChainAux slots f ((slots head).next24) = some L' := by
  unfold smFreeChainAux at h
  rw [if_neg hs] at h
  cases hrec : smFreeChainAux slots f ((slots head).next24) with
  | none => rw [hrec] at h; cases h
  | some L' =>
      rw [hrec] at h
      cases h
      exact ⟨L', rfl, rfl⟩

theorem smFreeChainAux_sentinel {slots : Nat → SMSlot} {f head : Nat}
    (hs : slotmap_index head = SLOTMAP_MAX_ID) :
    smFreeChainAux slots (f + 1) head = some [] := by
  unfold smFreeChainAux
  rw [if_pos hs]

/-- The states reachable from the null map when `remove` is only ever given
the handle of a currently-live slot — a handle issued by `add`/`copy` and
not yet removed (stale removes, which the version check turns into no-ops,
are also allowed) — and the map stays below the 24-bit index limit.  The
second component tracks the indices of the currently-live slots. -/
inductive SMReach (itemsize : Nat) (g : Nat → SMSlot) :
    Option SlotMap → List Nat → Prop
  | nil : SMReach itemsize g none []
  | add (a : Option SlotMap) (live : List Nat) : SMReach itemsize g a live →
      slotmap_used a < SLOTMAP_MAX_ID →
      SMReach itemsize g (slotmap_add itemsize g a).1
        (slotmap_index (slotmap_add itemsize g a).2 :: live)
  | copy (a : Option SlotMap) (live : List Nat) : SMReach itemsize g a live →
      slotmap_used a < SLOTMAP_MAX_ID →
      SMReach itemsize g (slotmap_copy itemsize g a).1
        (slotmap_index (slotmap_copy itemsize g a).2 :: live)
  | rem (a : Option SlotMap) (live : List Nat) (id : Nat) :
      SMReach itemsize g a live →
      slotmap_at a id = some (slotmap_index id) →
      slotmap_index id ∈ live →
      SMReach itemsize g (slotmap_remove a id).1
        (live.erase (slotmap_index id))
  | rem_miss (a : Option SlotMap) (live : List Nat) (id : Nat) :
      SMReach itemsize g a live →
      slotmap_at a id = none →
      SMReach itemsize g (slotmap_remove a id).1 live

/-- The SlotMap accounting invariant, relative to the ghost live-index set
`live` and the free chain `L`. -/
structure SMInv (m : SlotMap) (live : List Nat) (L : List Nat) : Prop where
  hchain : smFreeChainAux m.slots (m.frc + 1) m.frl = some L
  hlen : L.length = m.frc
  hnodup : L.Nodup
  hnodupLive : live.Nodup
  hdisj : ∀ i ∈ L, i ∉ live
  hcover : ∀ i, i < m.use → i ∈ L ∨ i ∈ live
  hLlt : ∀ i ∈ L, i < m.use
  hliveLt : ∀ i ∈ live, i < m.use
  huse : m.use ≤ SLOTMAP_MAX_ID

theorem slotmap_at_inv {m : SlotMap} {id i : Nat}
    (hat : slotmap_at (some m) id = some i) :
    i = slotmap_index id ∧ slotmap_index id < m.use ∧
    (m.slots (slotmap_index id)).version = id / IDX_MOD := by
  unfold slotmap_at at hat
  dsimp only at hat
  by_cases h1 : slotmap_index id < m.use
  · rw [if_pos h1] at hat
    by_cases h2 : (m.slots (slotmap_index id)).version = id / IDX_MOD
    · rw [if_pos h2] at hat
      cases hat
      exact ⟨rfl, h1, h2⟩
    · rw [if_neg h2] at hat
      cases hat
  · rw [if_neg h1] at hat
    cases hat

theorem SLOTMAP_MAX_ID_lt : SLOTMAP_MAX_ID < IDX_MOD ∧ SLOTMAP_MAX_ID < U32 := by
  unfold SLOTMAP_MAX_ID IDX_MOD U32
  omega

/-- Freelist-popping `slotmap_add` preserves the invariant: the head moves
off the chain (becoming live) and `free_count` drops by one. -/
theorem SMInv_add_pop {itemsize : Nat} {g : Nat → SMSlot} {m : SlotMap}
    {live L : List Nat} (inv : SMInv m live L)
    (hpop : slotmap_index m.frl ≠ SLOTMAP_MAX_ID) :
    ∃ m', (slotmap_add itemsize g (some m)).1 = some m' ∧
      slotmap_index (slotmap_add itemsize g (some m)).2 = m.frl ∧
      m'.frc = m.frc - 1 ∧ m'.use = m.use ∧
      smFreeChain m' = some L.tail ∧
      SMInv m' (m.frl :: live) L.tail := by
  obtain ⟨L', hLcons, hchain'⟩ := smFreeChainAux_cons inv.hchain hpop
  have hfrlmem : m.frl ∈ L := by
    rw [hLcons]
    exact List.mem_cons_self _ _
  have hfrl_lt : m.frl < m.use := inv.hLlt _ hfrlmem
  have hfrc_pos : 1 ≤ m.frc := by
    have := inv.hlen
    rw [hLcons] at this
    simp at this
    omega
  have hfrc_lt : m.frc < U32 := by
    have h1 : L.length ≤ m.use := nodup_lt_length_le inv.hnodup inv.hLlt
    have h2 := inv.huse
    have h3 := SLOTMAP_MAX_ID_lt.2
    have h4 := inv.hlen
    omega
  have heq : slotmap_add itemsize g (some m) =
      (some { m with
          frc := sub32 m.frc 1,
          frl := (m.slots m.frl).next24,
          slots := fun j =>
            if j = m.frl then
              { m.slots m.frl with
                  version := slotmap__id m.frl ((m.slots m.frl).version) / IDX_MOD % 256 }
            else m.slots j },
       slotmap__id m.frl ((m.slots m.frl).version)) := by
    simp only [slotmap_add, if_pos hpop]
  have hfrc' : sub32 m.frc 1 = m.frc - 1 := sub32_of_le hfrc_pos hfrc_lt
  have hfrl_ne_tail : m.frl ∉ L' := by
    have := inv.hnodup
    rw [hLcons] at this
    exact (List.nodup_cons.1 this).1
  have hchain2 : smFreeChainAux
      (fun j => if j = m.frl then
          { m.slots m.frl with
              version := slotmap__id m.frl ((m.slots m.frl).version) / IDX_MOD % 256 }
        else m.slots j)
      m.frc ((m.slots m.frl).next24) = some L' := by
    refine smFreeChainAux_congr _ _ _ hchain' ?_
    intro i hi
    have : i ≠ m.frl := fun hcon => hfrl_ne_tail (hcon ▸ hi)
    simp [this]
  have hidx : slotmap_index (slotmap__id m.frl ((m.slots m.frl).version)) = m.frl := by
    have h2 := inv.huse
    unfold SLOTMAP_MAX_ID at h2
    simp only [slotmap_index, slotmap__id, IDX_MOD]
    omega
  have hLtail : L.tail = L' := by
    rw [hLcons]
    rfl
  have hfrl_notlive : m.frl ∉ live := inv.hdisj _ hfrlmem
  have hfuel : m.frc - 1 + 1 = m.frc := by omega
  rw [heq]
  dsimp only
  refine ⟨_, rfl, hidx, hfrc', rfl, ?_, ?_⟩
  · -- the new chain is the old tail
    unfold smFreeChain
    dsimp only
    rw [hfrc', hLtail, hfuel]
    exact hchain2
  · refine ⟨?_, ?_, ?_, ?_, ?_, ?_, ?_, ?_, ?_⟩
    · dsimp only
      rw [hfrc', hLtail, hfuel]
      exact hchain2
    · dsimp only
      rw [hLtail, hfrc']
      have := inv.hlen
      rw [hLcons] at this
      simp at this
      omega
    · rw [hLtail]
      have := inv.hnodup
      rw [hLcons] at this
      exact (List.nodup_cons.1 this).2
    · exact List.nodup_cons.2 ⟨hfrl_notlive, inv.hnodupLive⟩
    · rw [hLtail]
      intro i hi
      have hiL : i ∈ L := by
        rw [hLcons]
        exact List.mem_cons_of_mem _ hi
      have h1 : i ∉ live := inv.hdisj _ hiL
      have h2 : i ≠ m.frl := fun hcon => hfrl_ne_tail (hcon ▸ hi)
      simp [h1, h2]
    · dsimp only
      intro i hi
      rcases inv.hcover i hi with hL | hlv
      · rw [hLcons] at hL
        rcases List.mem_cons.1 hL with rfl | hL
        · right
          exact List.mem_cons_self _ _
        · left
          rw [hLtail]
          exact hL
      · right
        exact List.mem_cons_of_mem _ hlv
    · dsimp only
      rw [hLtail]
      intro i hi
      refine inv.hLlt i ?_
      rw [hLcons]
      exact List.mem_cons_of_mem _ hi
    · dsimp only
      intro i hi
      rcases List.mem_cons.1 hi with rfl | hlv
      · exact hfrl_lt
      · exact inv.hliveLt _ hlv
    · exact inv.huse

/-- The build counterpart of `smFreeChainAux_cons`. -/
theorem smFreeChainAux_build {slots : Nat → SMSlot} {f head : Nat} {L : List Nat}
    (hs : slotmap_index head ≠ SLOTMAP_MAX_ID)
    (h : smFreeChainAux slots f ((slots head).next24) = some L) :
    smFreeChainAux slots (f + 1) head = some (head :: L) := by
  unfold smFreeChainAux
  rw [if_neg hs, h]

/-- Appending `slotmap_add` (empty free chain) preserves the invariant:
the new slot `used` becomes live, the chain stays empty. -/
theorem SMInv_add_append {itemsize : Nat} {g : Nat → SMSlot} {m : SlotMap}
    {live L : List Nat} (inv : SMInv m live L)
    (hnopop : slotmap_index m.frl = SLOTMAP_MAX_ID)
    (husen : m.use < SLOTMAP_MAX_ID) :
    ∃ m', (slotmap_add itemsize g (some m)).1 = some m' ∧
      slotmap_index (slotmap_add itemsize g (some m)).2 = m.use ∧
      m'.frc = m.frc ∧ m'.use = m.use + 1 ∧
      smFreeChain m' = some L ∧
      SMInv m' (m.use :: live) L := by
  have hnn : ¬ slotmap_index m.frl ≠ SLOTMAP_MAX_ID := not_not_intro hnopop
  have hLnil : L = [] := by
    have h := @smFreeChainAux_sentinel m.slots m.frc m.frl hnopop
    rw [inv.hchain] at h
    cases h
    rfl
  subst hLnil
  have hfrc0 : m.frc = 0 := by
    have h := inv.hlen
    simp at h
    omega
  have husei : slotmap_index m.use = m.use := by
    unfold slotmap_index IDX_MOD
    unfold SLOTMAP_MAX_ID at husen
    omega
  have hcore : ∀ (s : Nat) (upd : Nat → SMSlot),
      smFreeChain { siz := s, use := m.use + 1, frl := m.frl, frc := m.frc,
                    slots := upd } = some [] ∧
      SMInv { siz := s, use := m.use + 1, frl := m.frl, frc := m.frc, slots := upd }
        (m.use :: live) [] := by
    intro s upd
    constructor
    · unfold smFreeChain
      dsimp only
      exact smFreeChainAux_sentinel hnopop
    · refine ⟨?_, ?_, ?_, ?_, ?_, ?_, ?_, ?_, ?_⟩
      · dsimp only
        exact smFreeChainAux_sentinel hnopop
      · simp [hfrc0]
      · exact List.nodup_nil
      · refine List.nodup_cons.2 ⟨?_, inv.hnodupLive⟩
        intro hmem
        have := inv.hliveLt _ hmem
        omega
      · intro x hx
        cases hx
      · dsimp only
        intro x hx
        right
        rcases Nat.lt_succ_iff_lt_or_eq.1 hx with h | h
        · rcases inv.hcover x h with hL | hlv
          · cases hL
          · exact List.mem_cons_of_mem _ hlv
        · subst h
          exact List.mem_cons_self _ _
      · intro x hx
        cases hx
      · dsimp only
        intro x hx
        rcases List.mem_cons.1 hx with rfl | hlv
        · omega
        · have := inv.hliveLt _ hlv
          omega
      · dsimp only
        have := inv.huse
        unfold SLOTMAP_MAX_ID at this husen ⊢
        omega
  by_cases hgrow : m.use = m.siz
  · have heq : slotmap_add itemsize g (some m) =
        (some { siz := (SLOT_ALIGN (SLOT_FLEX_SIZE m.siz * itemsize + 16)
                  SLOT_ALIGN_SIZE - 16) / itemsize,
                use := m.use + 1, frl := m.frl, frc := m.frc,
                slots := fun j =>
                  if j = m.use then { m.slots m.use with version := m.use / IDX_MOD % 256 }
                  else m.slots j },
         m.use) := by
      simp only [slotmap_add, if_neg hnn, if_pos hgrow]
    rw [heq]
    dsimp only
    obtain ⟨hch, hin⟩ := hcore ((SLOT_ALIGN (SLOT_FLEX_SIZE m.siz * itemsize + 16)
      SLOT_ALIGN_SIZE - 16) / itemsize) _
    exact ⟨_, rfl, husei, rfl, rfl, hch, hin⟩
  · have heq : slotmap_add itemsize g (some m) =
        (some { siz := m.siz,
                use := m.use + 1, frl := m.frl, frc := m.frc,
                slots := fun j =>
                  if j = m.use then { m.slots m.use with version := m.use / IDX_MOD % 256 }
                  else m.slots j },
         m.use) := by
      simp only [slotmap_add, if_neg hnn, if_neg hgrow]
    rw [heq]
    dsimp only
    obtain ⟨hch, hin⟩ := hcore m.siz _
    exact ⟨_, rfl, husei, rfl, rfl, hch, hin⟩

/-- The first `slotmap_add` on the null map: one live slot, empty chain. -/
theorem SMInv_add_none {itemsize : Nat} {g : Nat → SMSlot} :
    ∃ m', (slotmap_add itemsize g (none : Option SlotMap)).1 = some m' ∧
      slotmap_index (slotmap_add itemsize g (none : Option SlotMap)).2 = 0 ∧
      SMInv m' [0] [] := by
  have heq : slotmap_add itemsize g (none : Option SlotMap) =
      (some { siz := (SLOT_ALIGN (SLOT_FLEX_SIZE 0 * itemsize + 16)
                SLOT_ALIGN_SIZE - 16) / itemsize,
              use := 1, frl := SLOT_NONE_ID, frc := 0,
              slots := fun j => if j = 0 then { g 0 with version := 0 } else g j },
       0) := by
    simp only [slotmap_add]
  rw [heq]
  dsimp only
  have hsent : slotmap_index SLOT_NONE_ID = SLOTMAP_MAX_ID := by decide
  refine ⟨_, rfl, by decide, ?_, ?_, ?_, ?_, ?_, ?_, ?_, ?_, ?_⟩
  · dsimp only
    exact smFreeChainAux_sentinel hsent
  · rfl
  · exact List.nodup_nil
  · simp
  · intro x hx
    cases hx
  · dsimp only
    intro x hx
    right
    have : x = 0 := by omega
    simp [this]
  · intro x hx
    cases hx
  · dsimp only
    intro x hx
    have : x = 0 := by
      rcases List.mem_cons.1 hx with rfl | h
      · rfl
      · cases h
    omega
  · dsimp only
    decide

/-- A guarded `slotmap_remove` (live handle) preserves the invariant: the
slot joins the head of the chain and `free_count` rises by one. -/
theorem SMInv_remove {m : SlotMap} {live L : List Nat} {id : Nat}
    (inv : SMInv m live L)
    (hat : slotmap_at (some m) id = some (slotmap_index id))
    (hmem : slotmap_index id ∈ live) :
    ∃ m', (slotmap_remove (some m) id).1 = some m' ∧
      m'.frc = m.frc + 1 ∧ m'.use = m.use ∧
      smFreeChain m' = some (slotmap_index id :: L) ∧
      SMInv m' (live.erase (slotmap_index id)) (slotmap_index id :: L) := by
  obtain ⟨-, hilt, hver⟩ := slotmap_at_inv hat
  have hiL : slotmap_index id ∉ L := fun hL => inv.hdisj _ hL hmem
  have heq : slotmap_remove (some m) id =
      (some { m with
          slots := fun j =>
            if j = slotmap_index id then
              { version := ((m.slots (slotmap_index id)).version + 1) % 256,
                next24 := m.frl % IDX_MOD }
            else m.slots j,
          frl := slotmap_index id,
          frc := m.frc + 1 },
       some (slotmap_index id)) := by
    simp only [slotmap_remove, hat]
  have hinew : slotmap_index (slotmap_index id) ≠ SLOTMAP_MAX_ID := by
    have h1 := inv.huse
    unfold slotmap_index IDX_MOD at *
    unfold SLOTMAP_MAX_ID at *
    omega
  have hcont : smFreeChainAux
      (fun j =>
        if j = slotmap_index id then
          { version := ((m.slots (slotmap_index id)).version + 1) % 256,
            next24 := m.frl % IDX_MOD }
        else m.slots j)
      (m.frc + 1) (m.frl % IDX_MOD) = some L := by
    cases hLc : L with
    | nil =>
        have hsent : slotmap_index m.frl = SLOTMAP_MAX_ID := by
          by_contra hns
          obtain ⟨L', hcons, -⟩ := smFreeChainAux_cons inv.hchain hns
          rw [hLc] at hcons
          cases hcons
        have hsent2 : slotmap_index (m.frl % IDX_MOD) = SLOTMAP_MAX_ID := by
          unfold slotmap_index at hsent ⊢
          unfold IDX_MOD at *
          omega
        exact smFreeChainAux_sentinel hsent2
    | cons x L'' =>
        have hns : slotmap_index m.frl ≠ SLOTMAP_MAX_ID := by
          intro hs
          have h := @smFreeChainAux_sentinel m.slots m.frc m.frl hs
          rw [inv.hchain] at h
          cases h
          cases hLc
        obtain ⟨L', hcons, -⟩ := smFreeChainAux_cons inv.hchain hns
        have hfrlL : m.frl ∈ L := by
          rw [hcons]
          exact List.mem_cons_self _ _
        have hfrl_lt : m.frl < m.use := inv.hLlt _ hfrlL
        have hfrlmod : m.frl % IDX_MOD = m.frl := by
          have h1 := inv.huse
          unfold SLOTMAP_MAX_ID at h1
          unfold IDX_MOD
          omega
        rw [hfrlmod, ← hLc]
        refine smFreeChainAux_congr _ _ _ inv.hchain ?_
        intro jj hjj
        have hne : jj ≠ slotmap_index id := fun hcon => hiL (hcon ▸ hjj)
        simp [hne]
  rw [heq]
  dsimp only
  refine ⟨_, rfl, rfl, rfl, ?_, ?_⟩
  · unfold smFreeChain
    dsimp only
    refine smFreeChainAux_build hinew ?_
    simp only [if_pos rfl]
    exact hcont
  · refine ⟨?_, ?_, ?_, ?_, ?_, ?_, ?_, ?_, ?_⟩
    · dsimp only
      refine smFreeChainAux_build hinew ?_
      simp only [if_pos rfl]
      exact hcont
    · dsimp only
      simp [inv.hlen]
    · exact List.nodup_cons.2 ⟨hiL, inv.hnodup⟩
    · exact inv.hnodupLive.erase _
    · intro x hx
      rcases List.mem_cons.1 hx with rfl | hxL
      · exact inv.hnodupLive.not_mem_erase
      · intro hcon
        exact inv.hdisj _ hxL (List.mem_of_mem_erase hcon)
    · dsimp only
      intro x hx
      rcases inv.hcover x hx with hL | hlv
      · left
        exact List.mem_cons_of_mem _ hL
      · by_cases hxi : x = slotmap_index id
        · left
          rw [hxi]
          exact List.mem_cons_self _ _
        · right
          exact (List.mem_erase_of_ne hxi).2 hlv
    · dsimp only
      intro x hx
      rcases List.mem_cons.1 hx with rfl | hxL
      · exact hilt
      · exact inv.hLlt _ hxL
    · dsimp only
      intro x hx
      exact inv.hliveLt _ (List.mem_of_mem_erase hx)
    · exact inv.huse

/-- Every guarded-reachable non-null map satisfies the accounting
invariant. -/
theorem SMReach_inv {itemsize : Nat} {g : Nat → SMSlot} {a : Option SlotMap}
    {live : List Nat} (hreach : SMReach itemsize g a live) :
    (∀ m, a = some m → ∃ L, SMInv m live L) ∧ (a = none → live = []) := by
  induction hreach with
  | nil =>
      refine ⟨?_, fun _ => rfl⟩
      intro m h
      cases h
  | add a live hr hlt ih =>
      cases a with
      | none =>
          have hlive : live = [] := ih.2 rfl
          subst hlive
          obtain ⟨m', heq, hidx, hinv⟩ := @SMInv_add_none itemsize g
          refine ⟨?_, ?_⟩
          · intro m hm
            rw [heq] at hm
            cases hm
            rw [hidx]
            exact ⟨[], hinv⟩
          · intro hcon
            rw [heq] at hcon
            cases hcon
      | some m0 =>
          obtain ⟨L, inv⟩ := ih.1 m0 rfl
          by_cases hpop : slotmap_index m0.frl ≠ SLOTMAP_MAX_ID
          · obtain ⟨m', heq, hidx, -, -, -, hinv⟩ :=
              @SMInv_add_pop itemsize g _ _ _ inv hpop
            refine ⟨?_, ?_⟩
            · intro m hm
              rw [heq] at hm
              cases hm
              rw [hidx]
              exact ⟨L.tail, hinv⟩
            · intro hcon
              rw [heq] at hcon
              cases hcon
          · push_neg at hpop
            have husen : m0.use < SLOTMAP_MAX_ID := by
              simpa [slotmap_used] using hlt
            obtain ⟨m', heq, hidx, -, -, -, hinv⟩ :=
              @SMInv_add_append itemsize g _ _ _ inv hpop husen
            refine ⟨?_, ?_⟩
            · intro m hm
              rw [heq] at hm
              cases hm
              rw [hidx]
              exact ⟨L, hinv⟩
            · intro hcon
              rw [heq] at hcon
              cases hcon
  | copy a live hr hlt ih =>
      simp only [slotmap_copy]
      cases a with
      | none =>
          have hlive : live = [] := ih.2 rfl
          subst hlive
          obtain ⟨m', heq, hidx, hinv⟩ := @SMInv_add_none itemsize g
          refine ⟨?_, ?_⟩
          · intro m hm
            rw [heq] at hm
            cases hm
            rw [hidx]
            exact ⟨[], hinv⟩
          · intro hcon
            rw [heq] at hcon
            cases hcon
      | some m0 =>
          obtain ⟨L, inv⟩ := ih.1 m0 rfl
          by_cases hpop : slotmap_index m0.frl ≠ SLOTMAP_MAX_ID
          · obtain ⟨m', heq, hidx, -, -, -, hinv⟩ :=
              @SMInv_add_pop itemsize g _ _ _ inv hpop
            refine ⟨?_, ?_⟩
            · intro m hm
              rw [heq] at hm
              cases hm
              rw [hidx]
              exact ⟨L.tail, hinv⟩
            · intro hcon
              rw [heq] at hcon
              cases hcon
          · push_neg at hpop
            have husen : m0.use < SLOTMAP_MAX_ID := by
              simpa [slotmap_used] using hlt
            obtain ⟨m', heq, hidx, -, -, -, hinv⟩ :=
              @SMInv_add_append itemsize g _ _ _ inv hpop husen
            refine ⟨?_, ?_⟩
            · intro m hm
              rw [heq] at hm
              cases hm
              rw [hidx]
              exact ⟨L, hinv⟩
            · intro hcon
              rw [heq] at hcon
              cases hcon
  | rem a live id hr hat hmem ih =>
      cases a with
      | none => simp [slotmap_at] at hat
      | some m0 =>
          obtain ⟨L, inv⟩ := ih.1 m0 rfl
          obtain ⟨m', heq, -, -, -, hinv⟩ := SMInv_remove inv hat hmem
          refine ⟨?_, ?_⟩
          · intro m hm
            rw [heq] at hm
            cases hm
            exact ⟨_, hinv⟩
          · intro hcon
            rw [heq] at hcon
            cases hcon
  | rem_miss a live id hr hat ih =>
      cases a with
      | none =>
          refine ⟨?_, fun _ => ih.2 rfl⟩
          intro m hm
          simp [slotmap_remove] at hm
      | some m0 =>
          obtain ⟨L, inv⟩ := ih.1 m0 rfl
          have heq : (slotmap_remove (some m0) id).1 = some m0 := by
            simp only [slotmap_remove, hat]
          refine ⟨?_, ?_⟩
          · intro m hm
            rw [heq] at hm
            cases hm
            exact ⟨L, inv⟩
          · intro hcon
            rw [heq] at hcon
            cases hcon

/-- C6 (amended): in every state reached by add/copy/remove sequences in
which each remove gets the handle of a currently-live slot and the map
stays below the 24-bit index limit: the free chain from `free_head` is a
terminated list whose length is `free_count`, `count = used − free_count`;
moreover a (live-handle) remove pushes exactly its slot index onto the
chain and increments `free_count`, and a freelist-reusing add pops exactly
the head and decrements it. -/
theorem slotmap_accounting (itemsize : Nat) (g : Nat → SMSlot) (m : SlotMap)
    (live : List Nat) (hreach : SMReach itemsize g (some m) live) :
    ∃ L, smFreeChain m = some L ∧ L.length = m.frc ∧
      slotmap_count (some m) = m.use - m.frc ∧
      (∀ id, slotmap_at (some m) id = some (slotmap_index id) →
        slotmap_index id ∈ live →
        (slotmap_remove (some m) id).1.map SlotMap.frc = some (m.frc + 1) ∧
        (slotmap_remove (some m) id).1.map smFreeChain
          = some (some (slotmap_index id :: L))) ∧
      (slotmap_index m.frl ≠ SLOTMAP_MAX_ID →
        (slotmap_add itemsize g (some m)).1.map SlotMap.frc = some (m.frc - 1) ∧
        (slotmap_add itemsize g (some m)).1.map smFreeChain = some (some L.tail)) := by
  obtain ⟨L, inv⟩ := (SMReach_inv hreach).1 m rfl
  have hfrc_le : m.frc ≤ m.use := by
    have h1 := nodup_lt_length_le inv.hnodup inv.hLlt
    have h2 := inv.hlen
    omega
  have huse32 : m.use < U32 := by
    have h1 := inv.huse
    have h2 := SLOTMAP_MAX_ID_lt.2
    omega
  refine ⟨L, inv.hchain, inv.hlen, ?_, ?_, ?_⟩
  · unfold slotmap_count
    exact sub32_of_le hfrc_le huse32
  · intro id hat hmem
    obtain ⟨m', heq, hfrc, -, hchain, -⟩ := SMInv_remove inv hat hmem
    rw [heq]
    constructor
    · simp [hfrc]
    · simp [hchain]
  · intro hpop
    obtain ⟨m', heq, -, hfrc, -, hchain, -⟩ :=
      @SMInv_add_pop itemsize g _ _ _ inv hpop
    rw [heq]
    constructor
    · simp [hfrc]
    · simp [hchain]

/-- The map after one `slotmap_add` from the null map (itemsize 8). -/
def c6m1 : SlotMap :=
  { siz := 12, use := 1, frl := SLOT_NONE_ID, frc := 0,
    slots := fun j => if j = 0 then { version := 0, next24 := 0 } else smG j }

theorem slotmap_accounting_witness :
    ∃ L, smFreeChain c6m1 = some L ∧ L.length = c6m1.frc ∧
      slotmap_count (some c6m1) = c6m1.use - c6m1.frc := by
  have h0 : SMReach 8 smG (slotmap_add 8 smG none).1
      (slotmap_index (slotmap_add 8 smG none).2 :: []) :=
    SMReach.add none [] SMReach.nil (by decide)
  have h1 : SMReach 8 smG (some c6m1) [0] := h0
  obtain ⟨L, hc, hl, hcount, -, -⟩ := slotmap_accounting 8 smG c6m1 [0] h1
  exact ⟨L, hc, hl, hcount⟩

end Chelp
